import Mathlib

/-!
# gmunpack: the container parser of `src/main.cpp`

A shallow embedding of the reader (`filereader`), the writer (`filewriter`), the three
extractors (`unpack_sprite`, `texture_data_offset`, `unpack_string`), the chunk dispatcher
(`unpack_chunk`) and the envelope loop (`unpack_form`).

Conventions of the embedding.

* The input file is a list of bytes (`Nat`, read modulo 256 where a byte is interpreted); the
  host is little-endian, so `read<uint32_t>()` is the little-endian value of 4 bytes.
* `size_t` and `off_t` are 64 bits wide (LP64): `m_offset` arithmetic is taken modulo `2^64`,
  a `size_t` argument reaches `lseek` as the `off_t` with the same 64 bits, and `lseek` fails
  when its target is not a non-negative `off_t`.
* In `filereader.read`, which the parser is stated over, `::read` on a regular file transfers
  `min(amount, bytes left)` bytes. `filereader.read_one_call` is the same function with the
  system call written out: the most one call transfers is a parameter, and the value
  returned is compared with `ssize_t(amount)`. The two agree for every amount up to that most
  (`read_one_call_eq_read`).
* `uint32_t` arithmetic is taken modulo `2^32`.
* Creating an output file and writing its bytes always succeeds; allocating a vector always
  succeeds.
* `printf` calls are recorded, in order, with their arguments.
* A C++ exception ends the run; the state reached when it is thrown is kept next to it.
-/

namespace GMUnpack

/-! ## Outcomes, diagnostics, state -/

/-- The ways a run can stop early. -/
inductive Err where
  /-- A `std::system_error` thrown by `filereader`. -/
  | ioError
  /-- The `std::runtime_error("Invalid input file")` of `unpack_form`. -/
  | invalidInput
  /-- The `std::runtime_error("Unknown chunk")` of `unpack_chunk`. -/
  | unknownChunk
  /-- A store outside the bounds of a buffer (no defined behaviour in C++). -/
  | outOfBounds
  deriving DecidableEq, Repr

/-- One `printf` call, with the values passed to it. -/
inductive Diag where
  /-- Line 152: the tag, the declared size and `input.offset() - 8`. -/
  | chunk (magic size hdr : Nat)
  /-- Line 120: the name (a `std::string`, printed through `c_str()`), the texture count,
  width and height. -/
  | sprite (name : List Nat) (num_textures : Nat) (width height : Int)
  /-- Line 131: the record offset and its three fields. -/
  | fileinfo (offset unknown1 unknown2 data_offset : Nat)
  /-- Line 145: the table offset and the `std::string` read, whose `c_str()` is printed. -/
  | string (offset : Nat) (value : List Nat)
  deriving DecidableEq, Repr

/-- The state a run acts on: the input file with the descriptor position of `m_fd`, the
reader field `m_offset`, the output files created so far and the diagnostics printed so far. -/
structure World where
  /-- Bytes of the input file. -/
  data : List Nat
  /-- File position the kernel keeps for `m_fd`. -/
  pos : Nat
  /-- The field `filereader::m_offset`. -/
  m_offset : Nat
  /-- Output files in order of creation: name and bytes written. -/
  files : List (String × List Nat)
  /-- Diagnostics in order of printing. -/
  out : List Diag
  deriving DecidableEq, Repr

/-- Result of a step: a value, or the exception thrown, each with the state reached. -/
inductive Res (α : Type) where
  | ok (a : α) (w : World)
  | err (e : Err) (w : World)
  deriving DecidableEq, Repr

/-- State reached by a step, whether it returned or threw. -/
def Res.world {α : Type} : Res α → World
  | .ok _ w => w
  | .err _ w => w

/-- A step of the program. -/
def M (α : Type) : Type := World → Res α

/-- Sequencing: an exception skips the rest. -/
def M.bind {α β : Type} (m : M α) (f : α → M β) : M β := fun w =>
  match m w with
  | .ok a w1 => f a w1
  | .err e w1 => .err e w1

instance : Monad M where
  pure a := fun w => .ok a w
  bind := M.bind

/-- Throwing. -/
def throw (e : Err) {α : Type} : M α := fun w => .err e w

/-- Two to the 32 and 64, the moduli of `uint32_t` and `size_t`. -/
def U32 : Nat := 4294967296
def U64 : Nat := 18446744073709551616
/-- Largest `off_t` plus one. -/
def OFF_MAX : Nat := 9223372036854775808

/-- Little-endian value of a byte string. -/
def le_value : List Nat → Nat
  | [] => 0
  | b :: bs => b % 256 + 256 * le_value bs

/-- Conversion of a `size_t` value to `off_t`. -/
def to_off_t (v : Nat) : Int :=
  if v % U64 < OFF_MAX then ((v % U64 : Nat) : Int) else ((v % U64 : Nat) : Int) - (U64 : Nat)

/-- Reinterpretation of a 32-bit pattern as `int32_t`. -/
def to_int32 (v : Nat) : Int :=
  if v % U32 < 2147483648 then (v % U32 : Nat) else ((v % U32 : Nat) : Int) - 4294967296

/-- The `n` consecutive little-endian 32-bit words of a buffer. -/
def words : Nat → List Nat → List Nat
  | 0, _ => []
  | n + 1, bs => le_value (bs.take 4) :: words n (bs.drop 4)

/-! ## filereader -/

/-- The most bytes one call of `read(2)` transfers on Linux, `0x7ffff000`. -/
def MAX_RW_COUNT : Nat := 2147479552

/-- One call of `read(2)` on `m_fd` for `amount` bytes: the value returned and the bytes
stored in the buffer. A count that is negative as an `ssize_t` is refused with -1; otherwise
the kernel transfers what is left of the file, up to `amount` and up to `max_rw` bytes, the
most a single call transfers (`MAX_RW_COUNT` on Linux). -/
def sys_read (max_rw amount : Nat) (w : World) : Int × List Nat :=
  if to_off_t amount < 0 then
    (-1, [])
  else
    ((((w.data.drop w.pos).take (min amount max_rw)).length : Int),
      (w.data.drop w.pos).take (min amount max_rw))

namespace filereader

/-- The constructor `filereader(const char*)`: descriptor at 0, `m_offset(0)`. -/
def mk (data : List Nat) : World :=
  { data := data, pos := 0, m_offset := 0, files := [], out := [] }

/-- Lines 30-36: `read(void*, size_t)`, for an amount that one call of `read(2)` transfers in
full when the file holds it. The kernel transfers what is left of the file, up to `amount`
bytes, and moves the descriptor by that count; a short count throws. -/
def read (amount : Nat) : M (List Nat) := fun w =>
  let buffer := (w.data.drop w.pos).take amount
  if buffer.length = amount then
    .ok buffer { w with pos := w.pos + amount, m_offset := (w.m_offset + amount) % U64 }
  else
    .err .ioError { w with pos := w.pos + buffer.length }

/-- Lines 30-36 with line 31 as the single system call it is, for every amount: the value
`::read` returns is compared with `ssize_t(amount)`, the `size_t` taken as the signed type of
the same 64 bits; when the two are equal `m_offset += amount`, otherwise the exception is
thrown. There is no second call: a count short of `amount` throws. The descriptor has moved
by the bytes transferred in both cases. -/
def read_one_call (max_rw amount : Nat) : M (List Nat) := fun w =>
  if (sys_read max_rw amount w).1 = to_off_t amount then
    .ok (sys_read max_rw amount w).2
      { w with
        pos := w.pos + (sys_read max_rw amount w).2.length
        m_offset := (w.m_offset + amount) % U64 }
  else
    .err .ioError { w with pos := w.pos + (sys_read max_rw amount w).2.length }

/-- Lines 43-48 at `T = uint32_t`. -/
def read_u32 : M Nat := do
  let tmp ← read 4
  pure (le_value tmp)

/-- Lines 43-48 at `T = int32_t`. -/
def read_i32 : M Int := do
  let tmp ← read 4
  pure (to_int32 (le_value tmp))

/-- Lines 30-36 with a `uint32_t` vector of `n` elements as buffer. -/
def read_words (n : Nat) : M (List Nat) := do
  let tmp ← read (4 * n)
  pure (words n tmp)

/-- Lines 50-54: `read_string`. -/
def read_string (length : Nat) : M (List Nat) := read length

/-- Lines 56-62: `seek`. The `size_t` argument becomes an `off_t`; `lseek` rejects a negative
one. -/
def seek (offset : Nat) : M Unit := fun w =>
  if offset < OFF_MAX then
    .ok () { w with pos := offset, m_offset := offset }
  else
    .err .ioError w

/-- Lines 64-70: `skip`. The `size_t` argument becomes an `off_t`, added to the descriptor
position; `lseek` rejects a target that is negative or does not fit an `off_t`. -/
def skip (amount : Nat) : M Unit := fun w =>
  if 0 ≤ (w.pos : Int) + to_off_t amount ∧ (w.pos : Int) + to_off_t amount < (OFF_MAX : Nat) then
    .ok () { w with
      pos := ((w.pos : Int) + to_off_t amount).toNat
      m_offset := (w.m_offset + amount) % U64 }
  else
    .err .ioError w

/-- Lines 72-74: `offset()`. -/
def offset : M Nat := fun w => .ok w.m_offset w

end filereader

/-- The `printf` calls. -/
def printf (d : Diag) : M Unit := fun w => .ok () { w with out := w.out ++ [d] }

/-- Lines 80-92 as used on lines 217-218: create the file, write the buffer, close. -/
def filewriter (filename : String) (buffer : List Nat) : M Unit := fun w =>
  .ok () { w with files := w.files ++ [(filename, buffer)] }

/-! ## Output file names -/

/-- Decimal digits of `n`, most significant first, prepended to `acc`; ten rounds cover every
32-bit value. -/
def dec_digits : Nat → Nat → List Char → List Char
  | 0, _, acc => acc
  | fuel + 1, n, acc =>
    if n / 10 = 0 then Nat.digitChar (n % 10) :: acc
    else dec_digits fuel (n / 10) (Nat.digitChar (n % 10) :: acc)

/-- Left padding with `'0'` up to `width` characters. -/
def zero_pad (width : Nat) (ds : List Char) : List Char :=
  List.replicate (width - ds.length) '0' ++ ds

/-- The conversion `%04d`: at least 4 characters, zero-padded, sign first. -/
def fmt_04d (v : Int) : List Char :=
  if 0 ≤ v then zero_pad 4 (dec_digits 10 v.toNat [])
  else '-' :: zero_pad 3 (dec_digits 10 (-v).toNat [])

/-- The characters `sprintf(filename, "%04d.png", i)` produces for a `uint32_t i`, which
`%d` takes as an `int`. -/
def png_name (i : Nat) : List Char :=
  fmt_04d (to_int32 i) ++ ['.', 'p', 'n', 'g']

/-- Lines 215-216: `char filename[9]` filled by `sprintf`; the characters and the
terminating NUL have to fit the 9 bytes. -/
def sprintf_filename (i : Nat) : M String :=
  if (png_name i).length + 1 ≤ 9 then pure (String.mk (png_name i))
  else throw .outOfBounds

/-! ## Extractors -/

/-- Lines 109-124: `unpack_sprite`. -/
def unpack_sprite (offset : Nat) : M Unit := do
  filereader.seek offset
  let name_offset ← filereader.read_u32
  let width ← filereader.read_i32
  let height ← filereader.read_i32
  filereader.skip 64
  let num_textures ← filereader.read_u32
  let _texture_offsets ← filereader.read_words num_textures
  filereader.seek ((name_offset + U32 - 4) % U32)
  let length ← filereader.read_u32
  let name ← filereader.read_string length
  printf (.sprite name num_textures width height)

/-- Lines 126-133: `texture_data_offset`. -/
def texture_data_offset (offset : Nat) : M Nat := do
  filereader.seek offset
  let unknown1 ← filereader.read_u32
  let unknown2 ← filereader.read_u32
  let data_offset ← filereader.read_u32
  printf (.fileinfo offset unknown1 unknown2 data_offset)
  pure data_offset

/-- Lines 142-146: `unpack_string`. -/
def unpack_string (offset : Nat) : M Unit := do
  filereader.seek offset
  let length ← filereader.read_u32
  let value ← filereader.read_string length
  printf (.string offset value)

/-! ## Chunks -/

/-- The 23 tags whose case is `return input.skip(size)`, in the order of the switch. -/
def skip_tags : List Nat :=
  [ 0x384e4547, -- GEN8
    0x4e54504f, -- OPTN
    0x474e414c, -- LANG
    0x4e545845, -- EXTN
    0x444e4f53, -- SOND
    0x50524741, -- AGRP
    0x444e4742, -- BGND
    0x48544150, -- PATH
    0x54504353, -- SCPT
    0x424f4c47, -- GLOB
    0x52444853, -- SHDR
    0x544e4f46, -- FONT
    0x4e4c4d54, -- TMLN
    0x544a424f, -- OBJT
    0x4d4f4f52, -- ROOM
    0x4c464144, -- DAFL
    0x49424d45, -- EMBI
    0x47415054, -- TPAG
    0x4e494754, -- TGIN
    0x45444f43, -- CODE
    0x49524156, -- VARI
    0x434e5546, -- FUNC
    0x4f445541 ] -- AUDO

/-- The tags of the three handled chunks and of the envelope. -/
def SPRT : Nat := 0x54525053
def STRG : Nat := 0x47525453
def TXTR : Nat := 0x52545854
def FORM : Nat := 0x4d524f46

/-- Lines 166-168: the loop over a sprite table. -/
def unpack_sprites : List Nat → M Unit
  | [] => pure ()
  | o :: os => do
    unpack_sprite o
    unpack_sprites os

/-- Lines 196-198: the loop over a string table. -/
def unpack_strings : List Nat → M Unit
  | [] => pure ()
  | o :: os => do
    unpack_string o
    unpack_strings os

/-- Line 205: `input.read(offsets.data(), 4 * num_textures)` into a vector that may hold
fewer than `n` words. Bytes the kernel would store past the end of the vector are a store
out of bounds. -/
def read_vector (offsets : List Nat) (n : Nat) : M (List Nat) := fun w =>
  if 4 * offsets.length < ((w.data.drop w.pos).take (4 * n)).length then
    .err .outOfBounds w
  else
    (do
      let ws ← filereader.read_words n
      pure (ws ++ offsets.drop n)) w

/-- Lines 206-208: `offsets[i] = texture_data_offset(input, offsets[i])` for the `k`
indices from `i` on. -/
def resolve_offsets : Nat → Nat → List Nat → M (List Nat)
  | 0, _, offsets => pure offsets
  | k + 1, i, offsets => do
    let d ← texture_data_offset (offsets.getD i 0)
    resolve_offsets k (i + 1) (offsets.set i d)

/-- Lines 210-219: the write loop, for the `k` indices from `i` on. -/
def write_textures : Nat → Nat → List Nat → M Unit
  | 0, _, _ => pure ()
  | k + 1, i, offsets => do
    filereader.seek (offsets.getD i 0)
    let len := (offsets.getD (i + 1) 0 + U32 - offsets.getD i 0) % U32
    let buffer ← filereader.read len
    let filename ← sprintf_filename i
    filewriter filename buffer
    write_textures k (i + 1) offsets

/-- Lines 154-225: the `switch (magic)` of `unpack_chunk`. -/
def dispatch (magic size : Nat) : M Unit :=
  if magic ∈ skip_tags then
    filereader.skip size
  else if magic = SPRT then do
    let next := ((← filereader.offset) + size) % U64
    let num_sprites ← filereader.read_u32
    let offsets ← filereader.read_words num_sprites
    unpack_sprites offsets
    filereader.seek next
  else if magic = STRG then do
    let next := ((← filereader.offset) + size) % U64
    let num_strings ← filereader.read_u32
    let offsets ← filereader.read_words num_strings
    unpack_strings offsets
    filereader.seek next
  else if magic = TXTR then do
    let next := ((← filereader.offset) + size) % U64
    let num_textures ← filereader.read_u32
    let offsets := List.replicate ((num_textures + 1) % U32) 0
    let offsets ← read_vector offsets num_textures
    let offsets ← resolve_offsets num_textures 0 offsets
    let offsets := offsets.set num_textures (next % U32)
    write_textures num_textures 0 offsets
    filereader.seek next
  else
    throw .unknownChunk

/-- Lines 148-226: `unpack_chunk`: the header, its diagnostic line, the switch. -/
def unpack_chunk : M Unit := do
  let magic ← filereader.read_u32
  let size ← filereader.read_u32
  let here ← filereader.offset
  printf (.chunk magic size ((here + U64 - 8) % U64))
  dispatch magic size

/-! ## Envelope -/

/-- Lines 233-235: the loop `while (input.offset() < size) unpack_chunk(input)`, run for at
most `fuel` iterations; `none` when the guard still holds after them. -/
def unpack_form_loop (size : Nat) : Nat → World → Option (Res Unit)
  | 0, w => if w.m_offset < size then none else some (.ok () w)
  | fuel + 1, w =>
    if w.m_offset < size then
      match unpack_chunk w with
      | .ok _ w1 => unpack_form_loop size fuel w1
      | .err e w1 => some (.err e w1)
    else some (.ok () w)

/-- Lines 228-239: `unpack_form`. -/
def unpack_form (fuel : Nat) (w : World) : Option (Res Unit) :=
  match filereader.read_u32 w with
  | .err e w1 => some (.err e w1)
  | .ok magic w1 =>
    match filereader.read_u32 w1 with
    | .err e w2 => some (.err e w2)
    | .ok size w2 =>
      if magic = FORM then unpack_form_loop size fuel w2
      else some (.err .invalidInput w2)

/-- Lines 241-244: `unpack` on a file with the given bytes. -/
def unpack (fuel : Nat) (data : List Nat) : Option (Res Unit) :=
  unpack_form fuel (filereader.mk data)

/-! ## Vocabulary of the statements -/

/-- The bytes `[a, a + n)` of the input (fewer when the input ends before `a + n`). -/
def slice (data : List Nat) (a n : Nat) : List Nat := (data.drop a).take n

/-- The 32-bit little-endian value stored at offset `a`. -/
def u32_at (data : List Nat) (a : Nat) : Nat := le_value (slice data a 4)

/-- A reader in the middle of a run: `m_offset` is the descriptor position, and the file is
at least 4 GiB shorter than the largest `off_t`. -/
def in_sync (w : World) : Prop := w.m_offset = w.pos ∧ w.data.length + U32 ≤ OFF_MAX

/-- The state in which the switch of `unpack_chunk` runs, for a chunk whose header is at the
position of `w`. -/
def after_header (w : World) : World :=
  { w with
    pos := w.pos + 8
    m_offset := w.pos + 8
    out := w.out ++ [.chunk (u32_at w.data w.pos) (u32_at w.data (w.pos + 4)) w.pos] }

/-- The offset table stored at `a`: a 32-bit count and that many 32-bit offsets. -/
def offset_table (data : List Nat) (a : Nat) : List Nat :=
  words (u32_at data a) (slice data (a + 4) (4 * u32_at data a))

/-- The text `unpack_string` prints for table offset `o`, when it lies inside the input. -/
def string_at (data : List Nat) (o : Nat) : List Nat :=
  slice data (o + 4) (u32_at data o)

/-- A step that leaves the input file as it is, whether it returns or throws. -/
def keeps_data {α : Type} (m : M α) : Prop := ∀ w, (m w).world.data = w.data

/-- A step that writes no file and throws nothing but the I/O error. -/
def quiet {α : Type} (m : M α) : Prop :=
  ∀ w, (m w).world.files = w.files ∧ ∀ e w1, m w = .err e w1 → e = .ioError

/-- The tags `unpack_chunk` has a case for. -/
def known_tag (magic : Nat) : Prop :=
  magic ∈ skip_tags ∨ magic = SPRT ∨ magic = STRG ∨ magic = TXTR

instance (magic : Nat) : Decidable (known_tag magic) := by
  unfold known_tag
  infer_instance

/-- The state at the loop guard of `unpack_form` after `k` iterations that all returned,
when there are that many. -/
def run_chunks (size : Nat) : Nat → World → Option World
  | 0, w => some w
  | k + 1, w =>
    if w.m_offset < size then
      match unpack_chunk w with
      | .ok _ w1 => run_chunks size k w1
      | .err _ _ => none
    else none

/-- The state `unpack_form` enters its loop in, for an input of at least 8 bytes. -/
def after_envelope (data : List Nat) : World :=
  { data := data, pos := 8, m_offset := 8, files := [], out := [] }

instance (w : World) : Decidable (in_sync w) := by
  unfold in_sync
  infer_instance

/-- The 4 bytes of a 32-bit value, little-endian. -/
def le32 (v : Nat) : List Nat :=
  [v % 256, v / 256 % 256, v / 65536 % 256, v / 16777216 % 256]

/-- A strings chunk at offset 0: two entries, listed in the table as 28 then 20. -/
def strg_input : List Nat :=
  le32 STRG ++ le32 28 ++ le32 2 ++ le32 28 ++ le32 20 ++
    le32 3 ++ [97, 98, 99, 0] ++ le32 2 ++ [100, 101, 0, 0]

/-- An envelope of declared length 8 whose body is the header of an empty GEN8 chunk. -/
def form8_input : List Nat :=
  le32 FORM ++ le32 8 ++ le32 0x384e4547 ++ le32 0

/-- An envelope whose tag is `RIFF`, followed by a textures chunk. -/
def riff_input : List Nat :=
  le32 0x46464952 ++ le32 8 ++ le32 TXTR ++ le32 0

/-- An AUDO chunk at offset 0 declaring 1000 bytes, of which the file holds 3. -/
def audo_input : List Nat :=
  le32 0x4f445541 ++ le32 1000 ++ [1, 2, 3]

/-- A texture-info record: two fields the parser does not interpret, then the data offset. -/
def info_record (unknown1 unknown2 data_offset : Nat) : List Nat :=
  le32 unknown1 ++ le32 unknown2 ++ le32 data_offset

/-- A textures chunk at offset 0 ending at offset 300 = 8 + 292, with three entries whose
data offsets are 100, 180 and 260. -/
def txtr_input : List Nat :=
  le32 TXTR ++ le32 292 ++ le32 3 ++ le32 24 ++ le32 36 ++ le32 48 ++
    info_record 1 2 100 ++ info_record 1 2 180 ++ info_record 1 2 260 ++
    List.replicate 40 0 ++
    List.replicate 80 1 ++ List.replicate 80 2 ++ List.replicate 40 3

/-- An envelope holding a textures chunk with one 2-byte blob, then a chunk tagged `JUNK`. -/
def junk_input : List Nat :=
  le32 FORM ++ le32 42 ++
    le32 TXTR ++ le32 22 ++ le32 1 ++ le32 24 ++ info_record 0 0 36 ++ [7, 9] ++
    le32 0x4b4e554a ++ le32 4 ++ [1, 2, 3, 4]

/-- The state of the run on `junk_input` when the loop guard is evaluated for the second
time, after the textures chunk. -/
def junk_reached : World :=
  { data := junk_input, pos := 38, m_offset := 38,
    files := [("0000.png", [7, 9])],
    out := [.chunk TXTR 22 8, .fileinfo 24 0 0 36] }

/-- A textures chunk at offset 0 declaring 500 bytes and 0 entries, in a 12-byte file. -/
def empty_txtr_input : List Nat :=
  le32 TXTR ++ le32 500 ++ le32 0

/-- A 10-byte file for the reader examples. -/
def ten_bytes : List Nat := [0x78, 0x56, 0x34, 0x12, 0xfe, 0xff, 0xff, 0xff, 9, 10]

/-- A file of 3 GiB of zero bytes. -/
def three_gib_input : List Nat := List.replicate 3221225472 0

/-- A textures chunk at offset 0 with two entries: the record of entry 0 is at 20 and its
2-byte blob at 32, the table offset of entry 1 is 1000, outside the 34-byte file. -/
def unresolved_input : List Nat :=
  le32 TXTR ++ le32 26 ++ le32 2 ++ le32 20 ++ le32 1000 ++ info_record 0 0 32 ++ [7, 9]

/-- A textures chunk at offset 0 whose count field holds `0xffffffff`, followed by 4 more
bytes. -/
def huge_count_input : List Nat :=
  le32 TXTR ++ le32 8 ++ le32 0xffffffff ++ [1, 2, 3, 4]

end GMUnpack

namespace GMUnpack

/-! ## Basic facts -/

theorem bind_apply {α β : Type} (m : M α) (f : α → M β) (w : World) :
    (m >>= f) w = match m w with
      | .ok a w1 => f a w1
      | .err e w1 => .err e w1 := rfl

theorem pure_apply {α : Type} (a : α) (w : World) : (pure a : M α) w = .ok a w := rfl

theorem bind_ok_inv {α β : Type} {m : M α} {f : α → M β} {w w2 : World} {b : β}
    (h : (m >>= f) w = .ok b w2) : ∃ a w1, m w = .ok a w1 ∧ f a w1 = .ok b w2 := by
  rw [bind_apply] at h
  cases hm : m w with
  | ok a w1 => rw [hm] at h; exact ⟨a, w1, rfl, h⟩
  | err e w1 => rw [hm] at h; cases h

theorem bind_of_ok {α β : Type} {m : M α} {f : α → M β} {w w1 : World} {a : α}
    (h : m w = .ok a w1) : (m >>= f) w = f a w1 := by
  rw [bind_apply, h]

theorem bind_of_err {α β : Type} {m : M α} {f : α → M β} {w w1 : World} {e : Err}
    (h : m w = .err e w1) : (m >>= f) w = .err e w1 := by
  rw [bind_apply, h]

theorem slice_length (data : List Nat) (a n : Nat) (h : a + n ≤ data.length) :
    (slice data a n).length = n := by
  simp only [slice, List.length_take, List.length_drop]; omega

theorem slice_length_le (data : List Nat) (a n : Nat) : (slice data a n).length ≤ n := by
  simp only [slice, List.length_take, List.length_drop]; omega

theorem slice_length_lt (data : List Nat) (a n : Nat) (h : (slice data a n).length = n) :
    a + n ≤ data.length ∨ n = 0 := by
  simp only [slice, List.length_take, List.length_drop] at h; omega

theorem le_value_lt (bs : List Nat) : le_value bs < 256 ^ bs.length := by
  induction bs with
  | nil => simp [le_value]
  | cons b bs ih =>
    simp only [le_value, List.length_cons, pow_succ]
    have : b % 256 < 256 := Nat.mod_lt _ (by decide)
    omega

theorem u32_at_lt (data : List Nat) (a : Nat) : u32_at data a < U32 := by
  have h1 := le_value_lt (slice data a 4)
  have h2 := slice_length_le data a 4
  have h3 : 256 ^ (slice data a 4).length ≤ 256 ^ 4 := Nat.pow_le_pow_right (by decide) h2
  have h4 : (256 : Nat) ^ 4 = U32 := by decide
  unfold u32_at
  omega

/-- A read of bytes that are there. -/
theorem read_ok (w : World) (n : Nat) (h : w.pos + n ≤ w.data.length) :
    filereader.read n w = .ok (slice w.data w.pos n)
      { w with pos := w.pos + n, m_offset := (w.m_offset + n) % U64 } := by
  have := slice_length w.data w.pos n h
  simp only [slice] at this
  simp [filereader.read, slice, this]

/-- A read that returned. -/
theorem read_ok_inv {w w1 : World} {n : Nat} {b : List Nat}
    (h : filereader.read n w = .ok b w1) :
    (w.pos + n ≤ w.data.length ∨ n = 0) ∧ b = slice w.data w.pos n ∧
      w1 = { w with pos := w.pos + n, m_offset := (w.m_offset + n) % U64 } := by
  simp only [filereader.read] at h
  split at h
  · rename_i hl
    cases h
    exact ⟨slice_length_lt _ _ _ hl, rfl, rfl⟩
  · cases h

theorem read_u32_ok (w : World) (h : w.pos + 4 ≤ w.data.length) :
    filereader.read_u32 w = .ok (u32_at w.data w.pos)
      { w with pos := w.pos + 4, m_offset := (w.m_offset + 4) % U64 } := by
  simp only [filereader.read_u32]
  rw [bind_of_ok (read_ok w 4 h)]
  rfl

theorem read_u32_ok_inv {w w1 : World} {v : Nat} (h : filereader.read_u32 w = .ok v w1) :
    w.pos + 4 ≤ w.data.length ∧ v = u32_at w.data w.pos ∧
      w1 = { w with pos := w.pos + 4, m_offset := (w.m_offset + 4) % U64 } := by
  simp only [filereader.read_u32] at h
  obtain ⟨b, w2, hr, hp⟩ := bind_ok_inv h
  obtain ⟨h1, h2, h3⟩ := read_ok_inv hr
  rw [pure_apply] at hp
  cases hp
  refine ⟨by omega, ?_, h3⟩
  rw [h2]; rfl

theorem seek_ok (w : World) (o : Nat) (h : o < OFF_MAX) :
    filereader.seek o w = .ok () { w with pos := o, m_offset := o } := by
  simp [filereader.seek, h]

theorem seek_ok_inv {w w1 : World} {o : Nat} {u : Unit} (h : filereader.seek o w = .ok u w1) :
    o < OFF_MAX ∧ w1 = { w with pos := o, m_offset := o } := by
  simp only [filereader.seek] at h
  split at h
  · rename_i ho; cases h; exact ⟨ho, rfl⟩
  · cases h

theorem to_off_t_of_lt (n : Nat) (h : n < OFF_MAX) : to_off_t n = (n : Int) := by
  have h1 : n % U64 = n := Nat.mod_eq_of_lt (by unfold OFF_MAX at h; unfold U64; omega)
  unfold to_off_t
  rw [h1, if_pos h]

theorem skip_ok (w : World) (n : Nat) (h : w.pos + n < OFF_MAX) :
    filereader.skip n w =
      .ok () { w with pos := w.pos + n, m_offset := (w.m_offset + n) % U64 } := by
  have e : (w.pos : Int) + (n : Int) = ((w.pos + n : Nat) : Int) := by push_cast; rfl
  simp only [filereader.skip, to_off_t_of_lt n (by omega), e]
  rw [if_pos ⟨Int.ofNat_nonneg _, by exact_mod_cast h⟩, Int.toNat_ofNat]

theorem skip_ok_inv {w w1 : World} {n : Nat} {u : Unit} (hn : n < OFF_MAX)
    (h : filereader.skip n w = .ok u w1) :
    w.pos + n < OFF_MAX ∧
      w1 = { w with pos := w.pos + n, m_offset := (w.m_offset + n) % U64 } := by
  have e : (w.pos : Int) + (n : Int) = ((w.pos + n : Nat) : Int) := by push_cast; rfl
  simp only [filereader.skip, to_off_t_of_lt n hn, e] at h
  split at h
  · rename_i ho
    rw [Int.toNat_ofNat] at h
    cases h
    exact ⟨by exact_mod_cast ho.2, rfl⟩
  · cases h

/-- With the header of a chunk inside the file, `unpack_chunk` reads it, prints its line and
runs the switch. -/
theorem unpack_chunk_header (w : World) (hs : in_sync w) (h : w.pos + 8 ≤ w.data.length) :
    unpack_chunk w =
      dispatch (u32_at w.data w.pos) (u32_at w.data (w.pos + 4)) (after_header w) := by
  obtain ⟨h1, h2⟩ := hs
  have hU : U32 = 4294967296 := rfl
  have hO : OFF_MAX = 9223372036854775808 := rfl
  have hm1 : (w.pos + 4) % U64 = w.pos + 4 := Nat.mod_eq_of_lt (by unfold U64; omega)
  have hm2 : (w.pos + 4 + 4) % U64 = w.pos + 8 := Nat.mod_eq_of_lt (by unfold U64; omega)
  have hm3 : (w.pos + 8 + U64 - 8) % U64 = w.pos := by
    have : w.pos + 8 + U64 - 8 = w.pos + U64 := by omega
    rw [this, Nat.add_mod_right]
    exact Nat.mod_eq_of_lt (by unfold U64; omega)
  simp only [unpack_chunk]
  rw [bind_of_ok (read_u32_ok w (by omega))]
  rw [bind_of_ok (read_u32_ok _ (by show w.pos + 4 + 4 ≤ w.data.length; omega))]
  simp only [bind_apply, filereader.offset, printf, h1, hm1, hm2, hm3, after_header]

/-- A chunk that was handled had its header inside the file. -/
theorem unpack_chunk_ok_header {w w1 : World} {u : Unit} (h : unpack_chunk w = .ok u w1) :
    w.pos + 8 ≤ w.data.length := by
  simp only [unpack_chunk] at h
  obtain ⟨magic, wa, ha, h⟩ := bind_ok_inv h
  obtain ⟨size, wb, hb, _⟩ := bind_ok_inv h
  obtain ⟨h1, _, h3⟩ := read_u32_ok_inv ha
  obtain ⟨h4, _, _⟩ := read_u32_ok_inv hb
  rw [h3] at h4
  simp only at h4
  omega

theorem offset_ok (w : World) : filereader.offset w = .ok w.m_offset w := rfl

theorem offset_ok_inv {w w1 : World} {a : Nat} (h : filereader.offset w = .ok a w1) :
    a = w.m_offset ∧ w = w1 := by
  simp only [filereader.offset] at h
  cases h
  exact ⟨rfl, rfl⟩

/-- The switch, when it returns, leaves the reader `size` bytes after the place it started
from (modulo the width of `size_t`), on a recognised tag. -/
theorem dispatch_ok_inv {magic size : Nat} {w w1 : World} {u : Unit}
    (hw : w.m_offset = w.pos) (hsize : size < U32) (h : dispatch magic size w = .ok u w1) :
    w1.m_offset = (w.m_offset + size) % U64 ∧ w1.pos = w1.m_offset ∧
      (magic ∈ skip_tags ∨ magic = SPRT ∨ magic = STRG ∨ magic = TXTR) := by
  unfold dispatch at h
  split at h
  · rename_i hm
    obtain ⟨h1, rfl⟩ := skip_ok_inv (by unfold U32 at hsize; unfold OFF_MAX; omega) h
    refine ⟨rfl, ?_, Or.inl hm⟩
    show w.pos + size = (w.m_offset + size) % U64
    rw [hw]
    exact (Nat.mod_eq_of_lt (by unfold OFF_MAX at h1; unfold U64; omega)).symm
  · split at h
    · rename_i hm
      obtain ⟨a, wa, ha, h⟩ := bind_ok_inv h
      obtain ⟨rfl, rfl⟩ := offset_ok_inv ha
      obtain ⟨n, wb, _, h⟩ := bind_ok_inv h
      obtain ⟨o1, wc, _, h⟩ := bind_ok_inv h
      obtain ⟨o2, wd, _, h⟩ := bind_ok_inv h
      obtain ⟨_, rfl⟩ := seek_ok_inv h
      exact ⟨rfl, rfl, Or.inr (Or.inl hm)⟩
    · split at h
      · rename_i hm
        obtain ⟨a, wa, ha, h⟩ := bind_ok_inv h
        obtain ⟨rfl, rfl⟩ := offset_ok_inv ha
        obtain ⟨n, wb, _, h⟩ := bind_ok_inv h
        obtain ⟨o1, wc, _, h⟩ := bind_ok_inv h
        obtain ⟨o2, wd, _, h⟩ := bind_ok_inv h
        obtain ⟨_, rfl⟩ := seek_ok_inv h
        exact ⟨rfl, rfl, Or.inr (Or.inr (Or.inl hm))⟩
      · split at h
        · rename_i hm
          obtain ⟨a, wa, ha, h⟩ := bind_ok_inv h
          obtain ⟨rfl, rfl⟩ := offset_ok_inv ha
          obtain ⟨n, wb, _, h⟩ := bind_ok_inv h
          obtain ⟨o1, wc, _, h⟩ := bind_ok_inv h
          obtain ⟨o2, wd, _, h⟩ := bind_ok_inv h
          obtain ⟨o3, we, _, h⟩ := bind_ok_inv h
          obtain ⟨_, rfl⟩ := seek_ok_inv h
          exact ⟨rfl, rfl, Or.inr (Or.inr (Or.inr hm))⟩
        · cases h

theorem slice_take (data : List Nat) (a n m : Nat) (h : m ≤ n) :
    (slice data a n).take m = slice data a m := by
  simp [slice, List.take_take, Nat.min_eq_left h]

theorem slice_drop (data : List Nat) (a n m : Nat) :
    (slice data a n).drop m = slice data (a + m) (n - m) := by
  simp only [slice, List.drop_take, List.drop_drop]

/-- The two header fields are functions of the 8 header bytes. -/
theorem header_fields (d1 d2 : List Nat) (a : Nat) (h : slice d2 a 8 = slice d1 a 8) :
    u32_at d2 a = u32_at d1 a ∧ u32_at d2 (a + 4) = u32_at d1 (a + 4) := by
  have h1 := congrArg (fun l => l.take 4) h
  have h2 := congrArg (fun l => l.drop 4) h
  simp only [slice_take _ _ 8 4 (by decide), slice_drop] at h1 h2
  simp only [u32_at]
  rw [h1]
  exact ⟨rfl, by
    have : (8 : Nat) - 4 = 4 := rfl
    rw [this] at h2; rw [h2]⟩

/-- The switch on a tag that is skipped. -/
theorem dispatch_skip (magic size : Nat) (w : World) (hm : magic ∈ skip_tags)
    (hw : w.m_offset = w.pos) (h : w.pos + size < OFF_MAX) :
    dispatch magic size w =
      .ok () { w with pos := w.pos + size, m_offset := w.m_offset + size } := by
  unfold dispatch
  rw [if_pos hm, skip_ok w size h]
  have : (w.m_offset + size) % U64 = w.m_offset + size :=
    Nat.mod_eq_of_lt (by unfold OFF_MAX at h; unfold U64; omega)
  rw [this]

/-! ## Strings -/

theorem words_length (n : Nat) (bs : List Nat) : (words n bs).length = n := by
  induction n generalizing bs with
  | zero => rfl
  | succ n ih => simp [words, ih]

theorem read_words_ok (w : World) (n : Nat) (h : w.pos + 4 * n ≤ w.data.length) :
    filereader.read_words n w = .ok (words n (slice w.data w.pos (4 * n)))
      { w with pos := w.pos + 4 * n, m_offset := (w.m_offset + 4 * n) % U64 } := by
  simp only [filereader.read_words]
  rw [bind_of_ok (read_ok w (4 * n) h)]
  rfl

/-- `unpack_string` on a table offset whose length field and text are inside the file. -/
theorem unpack_string_ok (w : World) (o : Nat) (hl : w.data.length + U32 ≤ OFF_MAX)
    (h : o + 4 + u32_at w.data o ≤ w.data.length) :
    unpack_string o w = .ok ()
      { w with
        pos := o + 4 + u32_at w.data o
        m_offset := o + 4 + u32_at w.data o
        out := w.out ++ [.string o (slice w.data (o + 4) (u32_at w.data o))] } := by
  have hO : OFF_MAX = 9223372036854775808 := rfl
  have hU : U32 = 4294967296 := rfl
  have hm1 : (o + 4) % U64 = o + 4 := Nat.mod_eq_of_lt (by unfold U64; omega)
  have hm2 : (o + 4 + u32_at w.data o) % U64 = o + 4 + u32_at w.data o :=
    Nat.mod_eq_of_lt (by unfold U64; omega)
  simp only [unpack_string]
  rw [bind_of_ok (seek_ok w o (by omega))]
  rw [bind_of_ok (read_u32_ok _ (by show o + 4 ≤ w.data.length; omega))]
  simp only [filereader.read_string]
  rw [bind_of_ok (read_ok _ _ (by show o + 4 + u32_at w.data o ≤ w.data.length; omega))]
  simp only [printf, hm1, hm2]

/-- The loop over a string table whose entries are all inside the file. -/
theorem unpack_strings_ok (os : List Nat) (w : World) (hl : w.data.length + U32 ≤ OFF_MAX)
    (h : ∀ o ∈ os, o + 4 + u32_at w.data o ≤ w.data.length) :
    ∃ w1, unpack_strings os w = .ok () w1 ∧ w1.data = w.data ∧ w1.files = w.files ∧
      w1.out = w.out ++ os.map (fun o => Diag.string o (string_at w.data o)) := by
  induction os generalizing w with
  | nil => exact ⟨w, rfl, rfl, rfl, by simp⟩
  | cons o os ih =>
    have ho := h o (List.mem_cons_self _ _)
    obtain ⟨w1, h1, h2, h3, h4⟩ := ih
      { w with
        pos := o + 4 + u32_at w.data o
        m_offset := o + 4 + u32_at w.data o
        out := w.out ++ [.string o (slice w.data (o + 4) (u32_at w.data o))] }
      hl (fun p hp => h p (List.mem_cons_of_mem _ hp))
    refine ⟨w1, ?_, h2, h3, ?_⟩
    · simp only [unpack_strings]
      rw [bind_of_ok (unpack_string_ok w o hl ho)]
      exact h1
    · rw [h4]
      simp [string_at]

/-- The switch on a strings chunk whose table and entries are inside the file. -/
theorem dispatch_strg (size : Nat) (w : World) (hs : in_sync w) (hsz : size < U32)
    (hn : w.pos + 4 + 4 * u32_at w.data w.pos ≤ w.data.length)
    (he : ∀ o ∈ offset_table w.data w.pos, o + 4 + u32_at w.data o ≤ w.data.length) :
    dispatch STRG size w = .ok ()
      { w with
        pos := w.pos + size
        m_offset := w.pos + size
        out := w.out ++
          (offset_table w.data w.pos).map (fun o => Diag.string o (string_at w.data o)) } := by
  obtain ⟨hs1, hs2⟩ := hs
  have hO : OFF_MAX = 9223372036854775808 := rfl
  have hU : U32 = 4294967296 := rfl
  have hmod : (w.pos + size) % U64 = w.pos + size := Nat.mod_eq_of_lt (by unfold U64; omega)
  obtain ⟨w1, h1, h2, h3, h4⟩ := unpack_strings_ok (offset_table w.data w.pos)
    { w with
      pos := w.pos + 4 + 4 * u32_at w.data w.pos
      m_offset := ((w.m_offset + 4) % U64 + 4 * u32_at w.data w.pos) % U64 }
    hs2 he
  unfold dispatch
  rw [if_neg (by decide), if_neg (by decide), if_pos rfl]
  rw [bind_of_ok (offset_ok w)]
  rw [bind_of_ok (read_u32_ok w (by omega))]
  rw [bind_of_ok (read_words_ok _ _ (by show w.pos + 4 + 4 * u32_at w.data w.pos ≤ w.data.length; omega))]
  dsimp only
  simp only [offset_table] at h1 h4
  rw [bind_of_ok h1]
  rw [hs1, hmod, seek_ok _ _ (by omega)]
  congr 1
  cases w1
  simp only at h2 h3 h4
  simp [h2, h3, h4, offset_table]

/-! ## Textures -/

theorem getD_set (l : List Nat) (i j a : Nat) :
    (l.set i a).getD j 0 = if i = j ∧ i < l.length then a else l.getD j 0 := by
  simp only [List.getD_eq_getElem?_getD, List.getElem?_set]
  by_cases hij : i = j
  · subst hij
    by_cases hl : i < l.length
    · simp [hl]
    · have : l.length ≤ i := Nat.le_of_not_lt hl
      simp [hl, List.getElem?_eq_none this]
  · simp [hij]

/-- A texture-info record that was resolved lies inside the file, and the value returned is
its third field. -/
theorem texture_data_offset_ok_inv {o d : Nat} {w w1 : World}
    (h : texture_data_offset o w = .ok d w1) :
    d = u32_at w.data (o + 8) ∧ w1.data = w.data ∧ w1.files = w.files ∧
      o + 12 ≤ w.data.length := by
  simp only [texture_data_offset] at h
  obtain ⟨_, wa, ha, h⟩ := bind_ok_inv h
  obtain ⟨_, rfl⟩ := seek_ok_inv ha
  obtain ⟨u1, wb, hb, h⟩ := bind_ok_inv h
  obtain ⟨hb1, _, rfl⟩ := read_u32_ok_inv hb
  obtain ⟨u2, wc, hc, h⟩ := bind_ok_inv h
  obtain ⟨hc1, _, rfl⟩ := read_u32_ok_inv hc
  obtain ⟨u3, wd, hd, h⟩ := bind_ok_inv h
  obtain ⟨hd1, hd2, rfl⟩ := read_u32_ok_inv hd
  obtain ⟨_, we, he, h⟩ := bind_ok_inv h
  simp only [printf] at he
  cases he
  rw [pure_apply] at h
  cases h
  simp only at hb1 hc1 hd1 hd2
  refine ⟨by rw [hd2], rfl, rfl, by omega⟩

/-- The resolving loop, when it returns: slots `i .. i + k - 1` hold the data offsets of the
records their old values pointed to, every other slot is as before. -/
theorem resolve_offsets_ok_inv (k : Nat) : ∀ (i : Nat) (offs : List Nat) (w : World)
    (offs1 : List Nat) (w1 : World), i + k ≤ offs.length →
    resolve_offsets k i offs w = .ok offs1 w1 →
    w1.data = w.data ∧ w1.files = w.files ∧ offs1.length = offs.length ∧
      ∀ j, offs1.getD j 0 =
        if i ≤ j ∧ j < i + k then u32_at w.data (offs.getD j 0 + 8) else offs.getD j 0 := by
  induction k with
  | zero =>
    intro i offs w offs1 w1 _ h
    simp only [resolve_offsets, pure_apply] at h
    cases h
    refine ⟨rfl, rfl, rfl, fun j => ?_⟩
    rw [if_neg (by omega)]
  | succ k ih =>
    intro i offs w offs1 w1 hlen h
    simp only [resolve_offsets] at h
    obtain ⟨d, wa, ha, h⟩ := bind_ok_inv h
    obtain ⟨hd, hd1, hd2, _⟩ := texture_data_offset_ok_inv ha
    obtain ⟨g1, g2, g3, g4⟩ := ih (i + 1) (offs.set i d) wa offs1 w1
      (by rw [List.length_set]; omega) h
    refine ⟨by rw [g1, hd1], by rw [g2, hd2], by rw [g3, List.length_set], fun j => ?_⟩
    rw [g4 j, hd1]
    simp only [getD_set]
    by_cases hj : i = j
    · subst hj
      have h1 : ¬ (i + 1 ≤ i ∧ i < i + 1 + k) := by omega
      have h2 : i ≤ i ∧ i < i + (k + 1) := by omega
      have h3 : i = i ∧ i < offs.length := ⟨rfl, by omega⟩
      rw [if_neg h1, if_pos h3, if_pos h2, hd]
    · have h3 : ¬ (i = j ∧ i < offs.length) := fun hc => hj hc.1
      simp only [if_neg h3]
      by_cases hr : i + 1 ≤ j ∧ j < i + 1 + k
      · have h2 : i ≤ j ∧ j < i + (k + 1) := by omega
        rw [if_pos hr, if_pos h2]
      · have h2 : ¬ (i ≤ j ∧ j < i + (k + 1)) := by omega
        rw [if_neg hr, if_neg h2]

/-- The write loop, when it returns: one file per index from `i` on, in index order, each
holding the bytes read at its offset, every read complete and every name within 8
characters. -/
theorem write_textures_ok_inv (k : Nat) : ∀ (i : Nat) (offs : List Nat) (w w1 : World),
    write_textures k i offs w = .ok () w1 →
    w1.data = w.data ∧
      w1.files = w.files ++ (List.range' i k).map (fun j =>
        (String.mk (png_name j),
          slice w.data (offs.getD j 0) ((offs.getD (j + 1) 0 + U32 - offs.getD j 0) % U32))) ∧
      ∀ j, i ≤ j → j < i + k →
        (slice w.data (offs.getD j 0)
          ((offs.getD (j + 1) 0 + U32 - offs.getD j 0) % U32)).length
          = (offs.getD (j + 1) 0 + U32 - offs.getD j 0) % U32 ∧
        (png_name j).length ≤ 8 := by
  induction k with
  | zero =>
    intro i offs w w1 h
    simp only [write_textures, pure_apply] at h
    cases h
    exact ⟨rfl, by simp, fun j h1 h2 => by omega⟩
  | succ k ih =>
    intro i offs w w1 h
    simp only [write_textures] at h
    obtain ⟨_, wa, ha, h⟩ := bind_ok_inv h
    obtain ⟨_, rfl⟩ := seek_ok_inv ha
    obtain ⟨buf, wb, hb, h⟩ := bind_ok_inv h
    obtain ⟨hb1, hb2, rfl⟩ := read_ok_inv hb
    obtain ⟨name, wc, hc, h⟩ := bind_ok_inv h
    simp only [sprintf_filename] at hc
    split at hc
    · rename_i hfit
      rw [pure_apply] at hc
      cases hc
      obtain ⟨_, wd, hd, h⟩ := bind_ok_inv h
      simp only [filewriter] at hd
      cases hd
      obtain ⟨g1, g2, g3⟩ := ih (i + 1) offs _ w1 h
      simp only at g1 g2 g3 hb1 hb2
      refine ⟨g1, ?_, fun j h1 h2 => ?_⟩
      · rw [g2, List.range'_succ, hb2]
        simp
      · by_cases hj : j = i
        · subst hj
          refine ⟨?_, by omega⟩
          rcases hb1 with hb1 | hb1
          · exact slice_length _ _ _ hb1
          · rw [hb1]; simp [slice]
        · exact g3 j (by omega) (by omega)
    · cases hc

theorem list_eq_of_getD (l1 l2 : List Nat) (hl : l1.length = l2.length)
    (h : ∀ j, j < l1.length → l1.getD j 0 = l2.getD j 0) : l1 = l2 := by
  apply List.ext_getElem hl
  intro n h1 h2
  have := h n h1
  rwa [List.getD_eq_getElem _ _ h1, List.getD_eq_getElem _ _ h2] at this

/-- An unrecognised tag: the header is read, its line printed, and the switch throws. -/
theorem unpack_chunk_unknown (w : World) (hh : w.pos + 8 ≤ w.data.length)
    (hunk : ¬ known_tag (u32_at w.data w.pos)) :
    unpack_chunk w = .err .unknownChunk
      { w with
        pos := w.pos + 8
        m_offset := ((w.m_offset + 4) % U64 + 4) % U64
        out := w.out ++ [.chunk (u32_at w.data w.pos) (u32_at w.data (w.pos + 4))
          ((((w.m_offset + 4) % U64 + 4) % U64 + U64 - 8) % U64)] } := by
  simp only [known_tag, not_or] at hunk
  obtain ⟨k1, k2, k3, k4⟩ := hunk
  simp only [unpack_chunk]
  rw [bind_of_ok (read_u32_ok w (by omega))]
  rw [bind_of_ok (read_u32_ok _ (by show w.pos + 4 + 4 ≤ w.data.length; omega))]
  simp only [bind_apply, filereader.offset, printf, dispatch, if_neg k1, if_neg k2, if_neg k3,
    if_neg k4, throw]

/-- After `k` iterations that returned, the loop goes on from the state they reached. -/
theorem unpack_form_loop_run (size : Nat) (k : Nat) : ∀ (fuel : Nat) (w0 w : World),
    run_chunks size k w0 = some w →
    unpack_form_loop size (k + fuel) w0 = unpack_form_loop size fuel w := by
  induction k with
  | zero =>
    intro fuel w0 w h
    simp only [run_chunks] at h
    cases h
    rw [Nat.zero_add]
  | succ k ih =>
    intro fuel w0 w h
    rw [Nat.succ_add]
    simp only [run_chunks] at h
    simp only [unpack_form_loop]
    split at h
    · rename_i hg
      rw [if_pos hg]
      cases hc : unpack_chunk w0 with
      | ok u wa =>
        rw [hc] at h
        exact ih fuel wa w h
      | err e wa =>
        rw [hc] at h
        cases h
    · cases h

/-- With a `FORM` header in place, `unpack` is the loop started right after it. -/
theorem unpack_enter (fuel : Nat) (data : List Nat) (h8 : 8 ≤ data.length)
    (hF : u32_at data 0 = FORM) :
    unpack fuel data = unpack_form_loop (u32_at data 4) fuel (after_envelope data) := by
  simp only [unpack, unpack_form]
  rw [read_u32_ok (filereader.mk data) (by simp [filereader.mk]; omega)]
  simp only []
  rw [read_u32_ok _ (by simp [filereader.mk]; omega)]
  simp only [filereader.mk, hF, if_true, after_envelope]
  rfl

/-- A strings chunk whose table and entries are inside the file. -/
theorem unpack_chunk_strg (w : World) (hs : in_sync w)
    (hh : w.pos + 8 ≤ w.data.length) (ht : u32_at w.data w.pos = STRG)
    (hn : w.pos + 12 + 4 * u32_at w.data (w.pos + 8) ≤ w.data.length)
    (he : ∀ o ∈ offset_table w.data (w.pos + 8), o + 4 + u32_at w.data o ≤ w.data.length) :
    unpack_chunk w = .ok ()
      { data := w.data
        pos := (w.pos + 8) + u32_at w.data (w.pos + 4)
        m_offset := (w.m_offset + 8) + u32_at w.data (w.pos + 4)
        files := w.files
        out := w.out ++ [.chunk STRG (u32_at w.data (w.pos + 4)) w.pos] ++
          (offset_table w.data (w.pos + 8)).map
            (fun o => Diag.string o (slice w.data (o + 4) (u32_at w.data o))) } := by
  rw [unpack_chunk_header w hs hh, ht]
  rw [dispatch_strg _ (after_header w) ⟨rfl, hs.2⟩ (u32_at_lt _ _)
    (by simp only [after_header]; omega) he]
  simp [after_header, ht, hs.1, string_at]

/-! ## The input file and the reader invariant along a run -/

theorem keeps_data_pure {α : Type} (a : α) : keeps_data (pure a : M α) := fun _ => rfl

theorem keeps_data_throw {α : Type} (e : Err) : keeps_data (throw e : M α) := fun _ => rfl

theorem keeps_data_bind {α β : Type} {m : M α} {f : α → M β} (hm : keeps_data m)
    (hf : ∀ a, keeps_data (f a)) : keeps_data (m >>= f) := by
  intro w
  rw [bind_apply]
  have h1 := hm w
  cases h : m w with
  | ok a w1 =>
    rw [h] at h1
    simp only []
    rw [hf a w1]
    exact h1
  | err e w1 =>
    rw [h] at h1
    exact h1

theorem keeps_data_read (n : Nat) : keeps_data (filereader.read n) := by
  intro w
  simp only [filereader.read]
  split <;> rfl

theorem keeps_data_seek (o : Nat) : keeps_data (filereader.seek o) := by
  intro w
  simp only [filereader.seek]
  split <;> rfl

theorem keeps_data_skip (n : Nat) : keeps_data (filereader.skip n) := by
  intro w
  simp only [filereader.skip]
  split <;> rfl

theorem keeps_data_offset : keeps_data filereader.offset := fun _ => rfl

theorem keeps_data_printf (d : Diag) : keeps_data (printf d) := fun _ => rfl

theorem keeps_data_filewriter (name : String) (b : List Nat) :
    keeps_data (filewriter name b) := fun _ => rfl

theorem keeps_data_read_u32 : keeps_data filereader.read_u32 :=
  keeps_data_bind (keeps_data_read 4) (fun _ => keeps_data_pure _)

theorem keeps_data_read_i32 : keeps_data filereader.read_i32 :=
  keeps_data_bind (keeps_data_read 4) (fun _ => keeps_data_pure _)

theorem keeps_data_read_words (n : Nat) : keeps_data (filereader.read_words n) :=
  keeps_data_bind (keeps_data_read _) (fun _ => keeps_data_pure _)

theorem keeps_data_unpack_string (o : Nat) : keeps_data (unpack_string o) :=
  keeps_data_bind (keeps_data_seek _) fun _ =>
  keeps_data_bind keeps_data_read_u32 fun _ =>
  keeps_data_bind (keeps_data_read _) fun _ => keeps_data_printf _

theorem keeps_data_unpack_sprite (o : Nat) : keeps_data (unpack_sprite o) :=
  keeps_data_bind (keeps_data_seek _) fun _ =>
  keeps_data_bind keeps_data_read_u32 fun _ =>
  keeps_data_bind keeps_data_read_i32 fun _ =>
  keeps_data_bind keeps_data_read_i32 fun _ =>
  keeps_data_bind (keeps_data_skip _) fun _ =>
  keeps_data_bind keeps_data_read_u32 fun _ =>
  keeps_data_bind (keeps_data_read_words _) fun _ =>
  keeps_data_bind (keeps_data_seek _) fun _ =>
  keeps_data_bind keeps_data_read_u32 fun _ =>
  keeps_data_bind (keeps_data_read _) fun _ => keeps_data_printf _

theorem keeps_data_texture_data_offset (o : Nat) : keeps_data (texture_data_offset o) :=
  keeps_data_bind (keeps_data_seek _) fun _ =>
  keeps_data_bind keeps_data_read_u32 fun _ =>
  keeps_data_bind keeps_data_read_u32 fun _ =>
  keeps_data_bind keeps_data_read_u32 fun _ =>
  keeps_data_bind (keeps_data_printf _) fun _ => keeps_data_pure _

theorem keeps_data_unpack_strings (os : List Nat) : keeps_data (unpack_strings os) := by
  induction os with
  | nil => exact keeps_data_pure _
  | cons o os ih => exact keeps_data_bind (keeps_data_unpack_string o) (fun _ => ih)

theorem keeps_data_unpack_sprites (os : List Nat) : keeps_data (unpack_sprites os) := by
  induction os with
  | nil => exact keeps_data_pure _
  | cons o os ih => exact keeps_data_bind (keeps_data_unpack_sprite o) (fun _ => ih)

theorem keeps_data_read_vector (v : List Nat) (n : Nat) : keeps_data (read_vector v n) := by
  intro w
  simp only [read_vector]
  split
  · rfl
  · exact keeps_data_bind (keeps_data_read_words n) (fun _ => keeps_data_pure _) w

theorem keeps_data_resolve_offsets (k : Nat) :
    ∀ (i : Nat) (offs : List Nat), keeps_data (resolve_offsets k i offs) := by
  induction k with
  | zero => exact fun _ _ => keeps_data_pure _
  | succ k ih =>
    exact fun i offs =>
      keeps_data_bind (keeps_data_texture_data_offset _) (fun _ => ih _ _)

theorem keeps_data_sprintf_filename (i : Nat) : keeps_data (sprintf_filename i) := by
  intro w
  simp only [sprintf_filename]
  split <;> rfl

theorem keeps_data_write_textures (k : Nat) :
    ∀ (i : Nat) (offs : List Nat), keeps_data (write_textures k i offs) := by
  induction k with
  | zero => exact fun _ _ => keeps_data_pure _
  | succ k ih =>
    exact fun i offs =>
      keeps_data_bind (keeps_data_seek _) fun _ =>
      keeps_data_bind (keeps_data_read _) fun _ =>
      keeps_data_bind (keeps_data_sprintf_filename _) fun _ =>
      keeps_data_bind (keeps_data_filewriter _ _) fun _ => ih _ _

theorem keeps_data_dispatch (magic size : Nat) : keeps_data (dispatch magic size) := by
  unfold dispatch
  split
  · exact keeps_data_skip _
  · split
    · exact keeps_data_bind keeps_data_offset fun _ =>
        keeps_data_bind keeps_data_read_u32 fun _ =>
        keeps_data_bind (keeps_data_read_words _) fun _ =>
        keeps_data_bind (keeps_data_unpack_sprites _) fun _ => keeps_data_seek _
    · split
      · exact keeps_data_bind keeps_data_offset fun _ =>
          keeps_data_bind keeps_data_read_u32 fun _ =>
          keeps_data_bind (keeps_data_read_words _) fun _ =>
          keeps_data_bind (keeps_data_unpack_strings _) fun _ => keeps_data_seek _
      · split
        · exact keeps_data_bind keeps_data_offset fun _ =>
            keeps_data_bind keeps_data_read_u32 fun _ =>
            keeps_data_bind (keeps_data_read_vector _ _) fun _ =>
            keeps_data_bind (keeps_data_resolve_offsets _ _ _) fun _ =>
            keeps_data_bind (keeps_data_write_textures _ _ _) fun _ => keeps_data_seek _
        · exact keeps_data_throw _

/-- No step of `unpack_chunk` changes the input file. -/
theorem keeps_data_unpack_chunk : keeps_data unpack_chunk :=
  keeps_data_bind keeps_data_read_u32 fun _ =>
  keeps_data_bind keeps_data_read_u32 fun _ =>
  keeps_data_bind keeps_data_offset fun _ =>
  keeps_data_bind (keeps_data_printf _) fun _ => keeps_data_dispatch _ _

/-- The reader the constructor builds is in step with its descriptor. -/
theorem in_sync_mk (data : List Nat) (h : data.length + U32 ≤ OFF_MAX) :
    in_sync (filereader.mk data) := ⟨rfl, h⟩

/-- So is the reader when `unpack_form` enters its loop. -/
theorem in_sync_after_envelope (data : List Nat) (h : data.length + U32 ≤ OFF_MAX) :
    in_sync (after_envelope data) := ⟨rfl, h⟩

/-- A chunk that is handled leaves the reader in step with its descriptor. -/
theorem in_sync_unpack_chunk {w w1 : World} {u : Unit} (hs : in_sync w)
    (h : unpack_chunk w = .ok u w1) : in_sync w1 := by
  have hd := keeps_data_unpack_chunk w
  rw [h] at hd
  have hh := unpack_chunk_ok_header h
  rw [unpack_chunk_header w hs hh] at h
  obtain ⟨_, h2, _⟩ := dispatch_ok_inv (by simp [after_header]) (u32_at_lt _ _) h
  refine ⟨h2.symm, ?_⟩
  have : w1.data = w.data := hd
  rw [this]
  exact hs.2

/-- Every state the loop of `unpack_form` reaches is in step with its descriptor. -/
theorem in_sync_run_chunks (size k : Nat) : ∀ (w0 w : World), in_sync w0 →
    run_chunks size k w0 = some w → in_sync w := by
  induction k with
  | zero =>
    intro w0 w hs h
    simp only [run_chunks] at h
    cases h
    exact hs
  | succ k ih =>
    intro w0 w hs h
    simp only [run_chunks] at h
    split at h
    · cases hc : unpack_chunk w0 with
      | ok u wa =>
        rw [hc] at h
        exact ih wa w (in_sync_unpack_chunk hs hc) h
      | err e wa =>
        rw [hc] at h
        cases h
    · cases h

/-! ## Textures: what the handler does on a given input -/

/-- Filling a vector that has room for the `n` words, from a file that holds them. -/
theorem read_vector_ok (v : List Nat) (n : Nat) (w : World) (hv : n ≤ v.length)
    (h : w.pos + 4 * n ≤ w.data.length) :
    read_vector v n w = .ok (words n (slice w.data w.pos (4 * n)) ++ v.drop n)
      { w with pos := w.pos + 4 * n, m_offset := (w.m_offset + 4 * n) % U64 } := by
  have hlen := slice_length w.data w.pos (4 * n) h
  simp only [slice] at hlen
  simp only [read_vector]
  rw [if_neg (by rw [hlen]; omega), bind_of_ok (read_words_ok w n h)]
  rfl

/-- The switch on a textures chunk that declares no entry. -/
theorem dispatch_txtr_empty (size : Nat) (w : World) (hs : in_sync w) (hsz : size < U32)
    (hc : w.pos + 4 ≤ w.data.length) (h0 : u32_at w.data w.pos = 0) :
    dispatch TXTR size w = .ok ()
      { w with pos := w.pos + size, m_offset := w.pos + size } := by
  obtain ⟨hs1, hs2⟩ := hs
  have hO : OFF_MAX = 9223372036854775808 := rfl
  have hU : U32 = 4294967296 := rfl
  have hmod : (w.pos + size) % U64 = w.pos + size := Nat.mod_eq_of_lt (by unfold U64; omega)
  unfold dispatch
  rw [if_neg (by decide), if_neg (by decide), if_neg (by decide), if_pos rfl]
  rw [bind_of_ok (offset_ok w)]
  rw [bind_of_ok (read_u32_ok w hc), h0]
  rw [bind_of_ok (read_vector_ok _ 0 _ (Nat.zero_le _) (by show w.pos + 4 + 4 * 0 ≤ w.data.length; omega))]
  simp only [resolve_offsets, write_textures, bind_apply, pure_apply]
  rw [hs1, hmod, seek_ok _ _ (by omega)]

/-! ## The reader on its own -/

theorem read_err (w : World) (n : Nat) (h : w.data.length - w.pos < n) :
    filereader.read n w = .err .ioError
      { w with pos := w.pos + (slice w.data w.pos n).length } := by
  have : ¬ ((w.data.drop w.pos).take n).length = n := by
    simp only [List.length_take, List.length_drop]; omega
  simp only [filereader.read, slice]
  rw [if_neg this]

theorem read_u32_err (w : World) (h : w.data.length - w.pos < 4) :
    filereader.read_u32 w = .err .ioError
      { w with pos := w.pos + (slice w.data w.pos 4).length } := by
  simp only [filereader.read_u32]
  rw [bind_of_err (read_err w 4 h)]

theorem texture_data_offset_ok (w : World) (o : Nat) (hl : w.data.length + U32 ≤ OFF_MAX)
    (h : o + 12 ≤ w.data.length) :
    texture_data_offset o w = .ok (u32_at w.data (o + 8))
      { w with
        pos := o + 12
        m_offset := o + 12
        out := w.out ++ [.fileinfo o (u32_at w.data o) (u32_at w.data (o + 4))
          (u32_at w.data (o + 8))] } := by
  have hO : OFF_MAX = 9223372036854775808 := rfl
  have hU : U32 = 4294967296 := rfl
  have m (x : Nat) (hx : x ≤ w.data.length) : x % U64 = x :=
    Nat.mod_eq_of_lt (by unfold U64; omega)
  simp only [texture_data_offset]
  rw [bind_of_ok (seek_ok w o (by omega))]
  rw [bind_of_ok (read_u32_ok _ (by show o + 4 ≤ w.data.length; omega))]
  rw [bind_of_ok (read_u32_ok _ (by show o + 4 + 4 ≤ w.data.length; omega))]
  rw [bind_of_ok (read_u32_ok _ (by show o + 4 + 4 + 4 ≤ w.data.length; omega))]
  have e8 : o + 4 + 4 = o + 8 := by omega
  have e12 : o + 8 + 4 = o + 12 := by omega
  simp only [printf, bind_apply, pure_apply, e8, e12, m _ (by omega : o + 4 ≤ w.data.length),
    m _ (by omega : o + 8 ≤ w.data.length), m _ h]

/-- The resolving loop on records that are all inside the file returns. -/
theorem resolve_offsets_ok (k : Nat) : ∀ (i : Nat) (offs : List Nat) (w : World),
    w.data.length + U32 ≤ OFF_MAX →
    (∀ j, i ≤ j → j < i + k → offs.getD j 0 + 12 ≤ w.data.length) →
    ∃ offs1 w1, resolve_offsets k i offs w = .ok offs1 w1 := by
  induction k with
  | zero => exact fun i offs w _ _ => ⟨offs, w, rfl⟩
  | succ k ih =>
    intro i offs w hl h
    have h0 := h i (Nat.le_refl _) (by omega)
    obtain ⟨offs1, w1, h1⟩ := ih (i + 1)
      (offs.set i (u32_at w.data (offs.getD i 0 + 8)))
      { w with
        pos := offs.getD i 0 + 12
        m_offset := offs.getD i 0 + 12
        out := w.out ++ [.fileinfo (offs.getD i 0) (u32_at w.data (offs.getD i 0))
          (u32_at w.data (offs.getD i 0 + 4)) (u32_at w.data (offs.getD i 0 + 8))] }
      hl
      (by
        intro j hj1 hj2
        rw [getD_set, if_neg (by omega)]
        exact h j (by omega) (by omega))
    refine ⟨offs1, w1, ?_⟩
    simp only [resolve_offsets]
    rw [bind_of_ok (texture_data_offset_ok w _ hl h0)]
    exact h1

/-- On a table whose records are all inside the file, the resolving loop puts in each slot
the data offset of the record the slot pointed to, in the same order, and leaves the slots
after the table alone. -/
theorem resolve_offsets_table (tbl rest : List Nat) (w : World)
    (hl : w.data.length + U32 ≤ OFF_MAX) (h : ∀ o ∈ tbl, o + 12 ≤ w.data.length) :
    ∃ w1, resolve_offsets tbl.length 0 (tbl ++ rest) w =
        .ok (tbl.map (fun o => u32_at w.data (o + 8)) ++ rest) w1 ∧
      w1.data = w.data ∧ w1.files = w.files := by
  obtain ⟨offs1, w1, h1⟩ := resolve_offsets_ok tbl.length 0 (tbl ++ rest) w hl
    (by
      intro j _ hj
      have hj' : j < tbl.length := by omega
      rw [List.getD_append _ _ _ _ hj', List.getD_eq_getElem _ _ hj']
      exact h _ (List.getElem_mem _))
  obtain ⟨g1, g2, g3, g4⟩ := resolve_offsets_ok_inv tbl.length 0 (tbl ++ rest) w offs1 w1
    (by simp) h1
  refine ⟨w1, ?_, g1, g2⟩
  rw [h1]
  congr 1
  apply list_eq_of_getD
  · rw [g3]; simp
  · intro j _
    rw [g4 j]
    by_cases hj : j < tbl.length
    · rw [if_pos ⟨Nat.zero_le _, by omega⟩]
      rw [List.getD_append _ _ _ _ hj, List.getD_append _ _ _ _ (by simp [hj])]
      rw [List.getD_eq_getElem _ _ hj, List.getD_eq_getElem _ _ (by simp [hj])]
      simp
    · rw [if_neg (by omega)]
      rw [List.getD_append_right _ _ _ _ (by omega),
        List.getD_append_right _ _ _ _ (by simp; omega)]
      simp

/-! ## Textures: runs that stop early -/

/-- A read of bytes that remain at the descriptor position. -/
theorem read_ok_of_remaining (w : World) (n : Nat) (h : n ≤ w.data.length - w.pos) :
    filereader.read n w = .ok (slice w.data w.pos n)
      { w with pos := w.pos + n, m_offset := (w.m_offset + n) % U64 } := by
  have hlen : ((w.data.drop w.pos).take n).length = n := by
    simp only [List.length_take, List.length_drop]; omega
  simp only [filereader.read, slice]
  rw [if_pos hlen]

theorem quiet_pure {α : Type} (a : α) : quiet (pure a : M α) :=
  fun _ => ⟨rfl, fun _ _ h => by cases h⟩

theorem quiet_bind {α β : Type} {m : M α} {f : α → M β} (hm : quiet m)
    (hf : ∀ a, quiet (f a)) : quiet (m >>= f) := by
  intro w
  rw [bind_apply]
  obtain ⟨h1, h2⟩ := hm w
  cases h : m w with
  | ok a w1 =>
    rw [h] at h1
    simp only []
    obtain ⟨k1, k2⟩ := hf a w1
    exact ⟨by rw [k1]; exact h1, k2⟩
  | err e w1 =>
    rw [h] at h1
    simp only []
    refine ⟨h1, fun e2 w2 he => ?_⟩
    cases he
    exact h2 _ _ h

theorem quiet_read (n : Nat) : quiet (filereader.read n) := by
  intro w
  simp only [filereader.read]
  split
  · exact ⟨rfl, fun _ _ h => by cases h⟩
  · exact ⟨rfl, fun _ _ h => by cases h; rfl⟩

theorem quiet_seek (o : Nat) : quiet (filereader.seek o) := by
  intro w
  simp only [filereader.seek]
  split
  · exact ⟨rfl, fun _ _ h => by cases h⟩
  · exact ⟨rfl, fun _ _ h => by cases h; rfl⟩

theorem quiet_printf (d : Diag) : quiet (printf d) :=
  fun _ => ⟨rfl, fun _ _ h => by cases h⟩

theorem quiet_read_u32 : quiet filereader.read_u32 :=
  quiet_bind (quiet_read 4) (fun _ => quiet_pure _)

theorem quiet_texture_data_offset (o : Nat) : quiet (texture_data_offset o) :=
  quiet_bind (quiet_seek _) fun _ =>
  quiet_bind quiet_read_u32 fun _ =>
  quiet_bind quiet_read_u32 fun _ =>
  quiet_bind quiet_read_u32 fun _ =>
  quiet_bind (quiet_printf _) fun _ => quiet_pure _

theorem quiet_resolve_offsets (k : Nat) :
    ∀ (i : Nat) (offs : List Nat), quiet (resolve_offsets k i offs) := by
  induction k with
  | zero => exact fun _ _ => quiet_pure _
  | succ k ih =>
    exact fun i offs => quiet_bind (quiet_texture_data_offset _) (fun _ => ih _ _)

/-- The resolving loop returns only if every record it visits is inside the file. -/
theorem resolve_offsets_ok_readable (k : Nat) : ∀ (i : Nat) (offs : List Nat) (w : World)
    (offs1 : List Nat) (w1 : World), resolve_offsets k i offs w = .ok offs1 w1 →
    ∀ j, i ≤ j → j < i + k → offs.getD j 0 + 12 ≤ w.data.length := by
  induction k with
  | zero => intro i offs w offs1 w1 _ j h1 h2; omega
  | succ k ih =>
    intro i offs w offs1 w1 h j h1 h2
    simp only [resolve_offsets] at h
    obtain ⟨d, wa, ha, h⟩ := bind_ok_inv h
    obtain ⟨_, hd1, _, hd3⟩ := texture_data_offset_ok_inv ha
    by_cases hj : j = i
    · subst hj; exact hd3
    · have := ih (i + 1) (offs.set i d) wa offs1 w1 h j (by omega) (by omega)
      rw [getD_set, if_neg (by omega), hd1] at this
      exact this


/-- A textures chunk whose table is inside the file and one of whose records is not: the
run stops before the write loop. -/
theorem unpack_chunk_txtr_unresolved (w : World) (j : Nat) (hs : in_sync w)
    (hh : w.pos + 12 ≤ w.data.length) (ht : u32_at w.data w.pos = TXTR)
    (htab : w.pos + 12 + 4 * u32_at w.data (w.pos + 8) ≤ w.data.length)
    (hj : j < u32_at w.data (w.pos + 8))
    (hbad : w.data.length < (offset_table w.data (w.pos + 8)).getD j 0 + 12) :
    ∃ e w1, unpack_chunk w = .err e w1 ∧ w1.files = w.files ∧
      (u32_at w.data (w.pos + 8) + 1 < U32 → e = .ioError) := by
  have hU : U32 = 4294967296 := rfl
  rw [unpack_chunk_header w hs (by omega), ht]
  unfold dispatch
  rw [if_neg (by decide), if_neg (by decide), if_neg (by decide), if_pos rfl]
  rw [bind_of_ok (offset_ok _)]
  rw [bind_of_ok (read_u32_ok _ (by simp only [after_header]; omega))]
  simp only [after_header]
  by_cases hN : u32_at w.data (w.pos + 8) + 1 < U32
  · rw [Nat.mod_eq_of_lt hN]
    rw [bind_of_ok (read_vector_ok _ _ _ (by simp)
      (by show w.pos + 8 + 4 + 4 * u32_at w.data (w.pos + 8) ≤ w.data.length; omega))]
    dsimp only
    cases hres : resolve_offsets (u32_at w.data (w.pos + 8)) 0
        (words (u32_at w.data (w.pos + 8))
            (slice w.data (w.pos + 8 + 4) (4 * u32_at w.data (w.pos + 8))) ++
          List.drop (u32_at w.data (w.pos + 8))
            (List.replicate (u32_at w.data (w.pos + 8) + 1) 0))
        { data := w.data, pos := w.pos + 8 + 4 + 4 * u32_at w.data (w.pos + 8),
          m_offset := ((w.pos + 8 + 4) % U64 + 4 * u32_at w.data (w.pos + 8)) % U64,
          files := w.files,
          out := w.out ++
            [Diag.chunk (u32_at w.data w.pos) (u32_at w.data (w.pos + 4)) w.pos] } with
    | ok offs1 wd =>
      have := resolve_offsets_ok_readable _ _ _ _ _ _ hres j (Nat.zero_le _) (by omega)
      rw [List.getD_append _ _ _ _ (by rw [words_length]; exact hj)] at this
      simp only [offset_table] at hbad
      simp only at this
      omega
    | err e w1 =>
      obtain ⟨q1, q2⟩ := quiet_resolve_offsets _ _ _
        { data := w.data, pos := w.pos + 8 + 4 + 4 * u32_at w.data (w.pos + 8),
          m_offset := ((w.pos + 8 + 4) % U64 + 4 * u32_at w.data (w.pos + 8)) % U64,
          files := w.files,
          out := w.out ++
            [Diag.chunk (u32_at w.data w.pos) (u32_at w.data (w.pos + 4)) w.pos] }
      rw [hres] at q1
      refine ⟨e, w1, ?_, q1, fun _ => q2 e w1 hres⟩
      rw [bind_apply, hres]
  · have hz : (u32_at w.data (w.pos + 8) + 1) % U32 = 0 := by
      have := u32_at_lt w.data (w.pos + 8)
      have : u32_at w.data (w.pos + 8) + 1 = U32 := by omega
      rw [this, Nat.mod_self]
    rw [hz]
    have hv : read_vector (List.replicate 0 0) (u32_at w.data (w.pos + 8))
        { data := w.data, pos := w.pos + 8 + 4, m_offset := (w.pos + 8 + 4) % U64,
          files := w.files,
          out := w.out ++ [Diag.chunk (u32_at w.data w.pos) (u32_at w.data (w.pos + 4)) w.pos] }
        = .err .outOfBounds
        { data := w.data, pos := w.pos + 8 + 4, m_offset := (w.pos + 8 + 4) % U64,
          files := w.files,
          out := w.out ++ [Diag.chunk (u32_at w.data w.pos) (u32_at w.data (w.pos + 4)) w.pos] } := by
      simp only [read_vector]
      rw [if_pos]
      simp only [List.length_replicate, List.length_take, List.length_drop]
      omega
    exact ⟨_, _, bind_of_err hv, rfl, fun h => absurd h hN⟩

/-! ## Progress of the envelope loop -/

/-- A chunk that is handled moves `offset()` on by the 8 header bytes and the declared
size. -/
theorem unpack_chunk_advance {w w1 : World} {u : Unit} (hs : in_sync w)
    (h : unpack_chunk w = .ok u w1) :
    w1.m_offset = w.m_offset + 8 + u32_at w.data (w.pos + 4) := by
  have hh := unpack_chunk_ok_header h
  rw [unpack_chunk_header w hs hh] at h
  obtain ⟨h1, _, _⟩ := dispatch_ok_inv (by simp [after_header]) (u32_at_lt _ _) h
  have hsz := u32_at_lt w.data (w.pos + 4)
  obtain ⟨hs1, hs2⟩ := hs
  have hmod : (w.pos + 8 + u32_at w.data (w.pos + 4)) % U64
      = w.pos + 8 + u32_at w.data (w.pos + 4) :=
    Nat.mod_eq_of_lt (by unfold U32 at hsz hs2; unfold OFF_MAX at hs2; unfold U64; omega)
  simp only [after_header] at h1
  rw [h1, hmod, hs1]

/-- The loop returns once the fuel covers the distance to `size` in steps of 8. -/
theorem unpack_form_loop_terminates (size : Nat) : ∀ (fuel : Nat) (w : World), in_sync w →
    size ≤ w.m_offset + 8 * fuel → ∃ r, unpack_form_loop size fuel w = some r := by
  intro fuel
  induction fuel with
  | zero =>
    intro w _ h
    simp only [unpack_form_loop]
    rw [if_neg (by omega)]
    exact ⟨_, rfl⟩
  | succ fuel ih =>
    intro w hs h
    simp only [unpack_form_loop]
    split
    · cases hc : unpack_chunk w with
      | ok u w1 =>
        have := unpack_chunk_advance hs hc
        exact ih w1 (in_sync_unpack_chunk hs hc) (by omega)
      | err e w1 => exact ⟨_, rfl⟩
    · exact ⟨_, rfl⟩

/-- After `k` handled chunks the offset is at least `8 + 8 k`. -/
theorem run_chunks_progress (size k : Nat) : ∀ (w0 w : World), in_sync w0 →
    run_chunks size k w0 = some w → w0.m_offset + 8 * k ≤ w.m_offset := by
  induction k with
  | zero =>
    intro w0 w _ h
    simp only [run_chunks] at h
    cases h
    omega
  | succ k ih =>
    intro w0 w hs h
    simp only [run_chunks] at h
    split at h
    · cases hc : unpack_chunk w0 with
      | ok u wa =>
        rw [hc] at h
        have h1 := unpack_chunk_advance hs hc
        have h2 := ih wa w (in_sync_unpack_chunk hs hc) h
        omega
      | err e wa =>
        rw [hc] at h
        cases h
    · cases h

/-- Whatever the input, `unpack` with enough fuel returns or throws. -/
theorem unpack_terminates (data : List Nat) (fuel : Nat) (hl : data.length + U32 ≤ OFF_MAX)
    (hf : (u32_at data 4 + 7) / 8 ≤ fuel) : ∃ r, unpack fuel data = some r := by
  by_cases h8 : 8 ≤ data.length
  · by_cases hF : u32_at data 0 = FORM
    · rw [unpack_enter fuel data h8 hF]
      apply unpack_form_loop_terminates _ _ _ (in_sync_after_envelope data hl)
      show u32_at data 4 ≤ 8 + 8 * fuel
      omega
    · simp only [unpack, unpack_form]
      rw [read_u32_ok (filereader.mk data) (by simp [filereader.mk]; omega)]
      simp only []
      rw [read_u32_ok _ (by simp [filereader.mk]; omega)]
      simp only [filereader.mk, if_neg hF]
      exact ⟨_, rfl⟩
  · simp only [unpack, unpack_form]
    cases h1 : filereader.read_u32 (filereader.mk data) with
    | err e w1 => exact ⟨_, rfl⟩
    | ok magic w1 =>
      simp only []
      cases h2 : filereader.read_u32 w1 with
      | err e w2 => exact ⟨_, rfl⟩
      | ok size w2 =>
        obtain ⟨a1, _, a3⟩ := read_u32_ok_inv h1
        obtain ⟨b1, _, _⟩ := read_u32_ok_inv h2
        rw [a3] at b1
        simp only [filereader.mk] at a1 b1
        omega


/-- Within the `ssize_t` range the call transfers what is left, up to the count and the
limit. -/
theorem sys_read_of_lt (max_rw n : Nat) (w : World) (h : n < OFF_MAX) :
    sys_read max_rw n w =
      ((((w.data.drop w.pos).take (min n max_rw)).length : Int),
        (w.data.drop w.pos).take (min n max_rw)) := by
  have hto : ¬ to_off_t n < 0 := by rw [to_off_t_of_lt n h]; omega
  unfold sys_read
  rw [if_neg hto]

/-- Up to the most one call transfers, the single call is the read of `filereader.read`. -/
theorem read_one_call_eq_read (max_rw n : Nat) (w : World) (hn : n ≤ max_rw)
    (hm : max_rw < OFF_MAX) :
    filereader.read_one_call max_rw n w = filereader.read n w := by
  have hlt : n < OFF_MAX := by omega
  have hmin : min n max_rw = n := Nat.min_eq_left hn
  simp only [filereader.read_one_call, filereader.read, sys_read_of_lt max_rw n w hlt,
    to_off_t_of_lt n hlt, hmin]
  by_cases h : ((w.data.drop w.pos).take n).length = n
  · rw [if_pos (by exact_mod_cast h), if_pos h, h]
  · rw [if_neg (by exact_mod_cast h), if_neg h]

/-- Above the most one call transfers, and within the `ssize_t` range, the count returned is
short and the read throws, whatever the file holds. -/
theorem read_one_call_above_limit (max_rw n : Nat) (w : World) (hn : max_rw < n)
    (hm : n < OFF_MAX) :
    filereader.read_one_call max_rw n w = .err .ioError
      { w with pos := w.pos + ((w.data.drop w.pos).take max_rw).length } := by
  have hmin : min n max_rw = max_rw := Nat.min_eq_right (by omega)
  have hne : ¬ ((((w.data.drop w.pos).take max_rw).length : Nat) : Int) = (n : Int) := by
    have : ((w.data.drop w.pos).take max_rw).length ≤ max_rw := by
      simp only [List.length_take]; omega
    omega
  simp only [filereader.read_one_call, sys_read_of_lt max_rw n w hm, to_off_t_of_lt n hm, hmin]
  rw [if_neg hne]

/-- What `filereader.read` does with `n` bytes, by the bytes left at the descriptor. -/
theorem read_of_remaining_or_not (w : World) (n : Nat) (hs : in_sync w) (hr : w.m_offset < U64) :
    (n ≤ w.data.length - w.pos →
      filereader.read n w = .ok (slice w.data w.pos n)
          { w with pos := w.pos + n, m_offset := w.m_offset + n } ∧
        (slice w.data w.pos n).length = n) ∧
      (w.data.length - w.pos < n →
        ∃ w1, filereader.read n w = .err .ioError w1 ∧ w1.m_offset = w.m_offset ∧
          w1.files = w.files) := by
  refine ⟨fun hm => ?_, fun hn => ⟨_, read_err w n hn, rfl, rfl⟩⟩
  have hlen : (slice w.data w.pos n).length = n := by
    simp only [slice, List.length_take, List.length_drop]; omega
  have hmod : (w.m_offset + n) % U64 = w.m_offset + n := by
    have := hs.2
    have := hs.1
    exact Nat.mod_eq_of_lt (by unfold U64 OFF_MAX U32 at *; omega)
  refine ⟨?_, hlen⟩
  rw [read_ok_of_remaining w n hm, hmod]

/-- Length of the 3 GiB test file. -/
theorem three_gib_length : (filereader.mk three_gib_input).data.length = 3221225472 :=
  List.length_replicate _ _

/-! ## The claims -/

/-- C1. Chunk-boundary postcondition: whenever `unpack_chunk` returns (its tag is then one of
the 23 skipped tags, SPRT, STRG or TXTR), `offset()` and the descriptor are at
`start + size`, where `start` is the offset right after the 8-byte header and `size` the
declared 32-bit size, whatever the handler read or sought in between. -/
theorem chunk_boundary_postcondition (w w1 : World) (hs : in_sync w)
    (h : unpack_chunk w = .ok () w1) :
    (u32_at w.data w.pos ∈ skip_tags ∨ u32_at w.data w.pos = SPRT ∨
        u32_at w.data w.pos = STRG ∨ u32_at w.data w.pos = TXTR) ∧
      w1.m_offset = (w.m_offset + 8) + u32_at w.data (w.pos + 4) ∧
      w1.pos = (w.m_offset + 8) + u32_at w.data (w.pos + 4) := by
  have hh := unpack_chunk_ok_header h
  rw [unpack_chunk_header w hs hh] at h
  obtain ⟨h1, h2, h3⟩ := dispatch_ok_inv (by simp [after_header]) (u32_at_lt _ _) h
  have hsz := u32_at_lt w.data (w.pos + 4)
  obtain ⟨hs1, hs2⟩ := hs
  have hmod : (w.pos + 8 + u32_at w.data (w.pos + 4)) % U64
      = w.pos + 8 + u32_at w.data (w.pos + 4) :=
    Nat.mod_eq_of_lt (by unfold U32 at hsz hs2; unfold OFF_MAX at hs2; unfold U64; omega)
  simp only [after_header] at h1
  rw [hmod] at h1
  refine ⟨h3, ?_, ?_⟩
  · rw [h1, hs1]
  · rw [h2, h1, hs1]

/-- C1, on the strings chunk `strg_input`: the handler seeks to 28, then back to 20, and the
reader still ends at 36 = 8 + 28. -/
theorem chunk_boundary_postcondition_witness :
    in_sync (filereader.mk strg_input) ∧
      unpack_chunk (filereader.mk strg_input) = .ok ()
        { data := strg_input, pos := 36, m_offset := 36, files := [],
          out := [.chunk STRG 28 0, .string 28 [100, 101], .string 20 [97, 98, 99]] } ∧
      (36 : Nat) = (0 + 8) + u32_at strg_input (0 + 4) :=
  have h := unpack_chunk_strg (filereader.mk strg_input) (by decide) (by decide) (by decide)
    (by decide) (by decide)
  ⟨by decide, h, (chunk_boundary_postcondition (filereader.mk strg_input) _ (by decide) h).2.1⟩

/-- C4 (the code at the input the claim proposes). For the envelope `FORM`, length 8, whose
body is one chunk header of declared size 0, `unpack_form` returns without reading the
chunk header: the descriptor stays at 8 and no chunk line is printed, because the guard
compares the offset counted from the start of the file, 8, with the length 8. -/
theorem envelope_loop_stops_8_bytes_early (fuel : Nat) :
    unpack fuel form8_input =
      some (.ok () { data := form8_input, pos := 8, m_offset := 8, files := [], out := [] }) := by
  cases fuel <;> rfl

/-- C5. Malformed envelope: on an input of at least 8 bytes whose first 4 bytes are not
`FORM`, `unpack_form` throws the format error right after the 8 header bytes: the descriptor
is at 8, no chunk header was read (no chunk line printed) and no file was written. -/
theorem malformed_envelope_fails_first (fuel : Nat) (data : List Nat)
    (h8 : 8 ≤ data.length) (hm : u32_at data 0 ≠ FORM) :
    unpack fuel data =
      some (.err .invalidInput
        { data := data, pos := 8, m_offset := 8, files := [], out := [] }) := by
  simp only [unpack, unpack_form]
  rw [read_u32_ok (filereader.mk data) (by simp [filereader.mk]; omega)]
  simp only []
  rw [read_u32_ok _ (by simp [filereader.mk]; omega)]
  simp [filereader.mk, hm]
  decide

/-- C5, on `riff_input`: the run stops with the format error and the textures chunk after
the header is not looked at. -/
theorem malformed_envelope_fails_first_witness :
    8 ≤ riff_input.length ∧ u32_at riff_input 0 ≠ FORM ∧
      unpack 5 riff_input =
        some (.err .invalidInput
          { data := riff_input, pos := 8, m_offset := 8, files := [], out := [] }) :=
  ⟨by decide, by decide, malformed_envelope_fails_first 5 riff_input (by decide) (by decide)⟩

/-- C6. Unknown chunk: in a run on an input with a `FORM` header, if after `k` chunks that
were handled the loop guard holds and the next 8 bytes are a chunk header whose tag is none
of the 23 skipped tags, SPRT, STRG, TXTR, then the run (with fuel for `k + 1` iterations or
more) throws the unknown-chunk error there: the header has been read and its line printed,
and the list of output files is the one the earlier chunks left, with nothing added. -/
theorem unknown_chunk_aborts (data : List Nat) (k fuel : Nat) (w : World)
    (h8 : 8 ≤ data.length) (hF : u32_at data 0 = FORM)
    (hreach : run_chunks (u32_at data 4) k (after_envelope data) = some w)
    (hguard : w.m_offset < u32_at data 4)
    (hh : w.pos + 8 ≤ w.data.length)
    (hunk : ¬ known_tag (u32_at w.data w.pos)) :
    unpack (k + (fuel + 1)) data = some (.err .unknownChunk
      { data := w.data
        pos := w.pos + 8
        m_offset := ((w.m_offset + 4) % U64 + 4) % U64
        files := w.files
        out := w.out ++ [.chunk (u32_at w.data w.pos) (u32_at w.data (w.pos + 4))
          ((((w.m_offset + 4) % U64 + 4) % U64 + U64 - 8) % U64)] }) := by
  rw [unpack_enter _ _ h8 hF, unpack_form_loop_run _ k (fuel + 1) _ w hreach]
  simp only [unpack_form_loop]
  rw [if_pos hguard, unpack_chunk_unknown w hh hunk]

/-- C6, on `junk_input`: the textures chunk writes `0000.png`, the chunk tagged `JUNK` stops
the run with the unknown-chunk error, and `0000.png` is the one output file. -/
theorem unknown_chunk_aborts_witness :
    run_chunks (u32_at junk_input 4) 1 (after_envelope junk_input) = some junk_reached ∧
      unpack 5 junk_input = some (.err .unknownChunk
        { data := junk_input, pos := 46, m_offset := 46,
          files := [("0000.png", [7, 9])],
          out := [.chunk TXTR 22 8, .fileinfo 24 0 0 36, .chunk 0x4b4e554a 4 38] }) :=
  ⟨by decide!,
    unknown_chunk_aborts junk_input 1 3 junk_reached (by decide!) (by decide!) (by decide!)
      (by decide!) (by decide!) (by decide!)⟩

/-- C7. Size-driven skip: for a chunk whose tag is one of the 23 skipped tags, whatever its
declared size and its body, `unpack_chunk` returns with the descriptor and `offset()` at
`start + size`, the file list unchanged and only the chunk line printed; and a file that has
the same 8 header bytes at that place, with any other content, gives the same positions,
files and diagnostics, so no body byte is looked at. -/
theorem skip_is_size_driven (w : World) (hs : in_sync w) (hh : w.pos + 8 ≤ w.data.length)
    (ht : u32_at w.data w.pos ∈ skip_tags) :
    unpack_chunk w = .ok ()
        { data := w.data
          pos := (w.pos + 8) + u32_at w.data (w.pos + 4)
          m_offset := (w.m_offset + 8) + u32_at w.data (w.pos + 4)
          files := w.files
          out := w.out ++ [.chunk (u32_at w.data w.pos) (u32_at w.data (w.pos + 4)) w.pos] } ∧
      ∀ d2 : List Nat, d2.length + U32 ≤ OFF_MAX → w.pos + 8 ≤ d2.length →
        slice d2 w.pos 8 = slice w.data w.pos 8 →
        unpack_chunk { w with data := d2 } = .ok ()
          { data := d2
            pos := (w.pos + 8) + u32_at w.data (w.pos + 4)
            m_offset := (w.m_offset + 8) + u32_at w.data (w.pos + 4)
            files := w.files
            out := w.out ++
              [.chunk (u32_at w.data w.pos) (u32_at w.data (w.pos + 4)) w.pos] } := by
  have key : ∀ v : World, in_sync v → v.pos + 8 ≤ v.data.length →
      u32_at v.data v.pos ∈ skip_tags →
      unpack_chunk v = .ok ()
        { data := v.data
          pos := (v.pos + 8) + u32_at v.data (v.pos + 4)
          m_offset := (v.m_offset + 8) + u32_at v.data (v.pos + 4)
          files := v.files
          out := v.out ++
            [.chunk (u32_at v.data v.pos) (u32_at v.data (v.pos + 4)) v.pos] } := by
    intro v hv hvh hvt
    have hsz := u32_at_lt v.data (v.pos + 4)
    rw [unpack_chunk_header v hv hvh]
    rw [dispatch_skip _ _ _ hvt (by simp [after_header])
      (by simp only [after_header]; unfold U32 at hsz; have := hv.2
          unfold U32 OFF_MAX at this; unfold OFF_MAX; omega)]
    simp [after_header, hv.1]
  refine ⟨key w hs hh ht, ?_⟩
  intro d2 hl hh2 hsame
  obtain ⟨e1, e2⟩ := header_fields w.data d2 w.pos hsame
  have := key { w with data := d2 } ⟨hs.1, hl⟩ hh2 (by simpa [e1] using ht)
  simpa [e1, e2] using this

/-- C7, on `audo_input`: 1000 bytes are declared, 3 are in the file, and the reader ends at
8 + 1000 with nothing written. -/
theorem skip_is_size_driven_witness :
    in_sync (filereader.mk audo_input) ∧
      unpack_chunk (filereader.mk audo_input) = .ok ()
        { data := audo_input, pos := 1008, m_offset := 1008, files := [],
          out := [.chunk 0x4f445541 1000 0] } :=
  ⟨by decide,
    (skip_is_size_driven (filereader.mk audo_input) (by decide) (by decide) (by decide)).1⟩

/-- C10 (the code at the failing index). For entry index 10000, `sprintf` produces the 9
characters `10000.png`, which with the terminating NUL are 10 bytes for the 9-byte buffer:
whatever the table and the input, an iteration of the write loop at index 10000 does not
complete, and on a 3-byte input it ends, the blob read, in a store past the end of
`filename`, with no file created. Index 9999 is the last to give a 4-digit name. -/
theorem png_name_overflows_at_10000 :
    png_name 9999 = ['9', '9', '9', '9', '.', 'p', 'n', 'g'] ∧
      png_name 10000 = ['1', '0', '0', '0', '0', '.', 'p', 'n', 'g'] ∧
      (png_name 10000).length + 1 = 10 ∧
      (∀ (k : Nat) (offs : List Nat) (w w1 : World),
        write_textures (k + 1) 10000 offs w ≠ .ok () w1) ∧
      write_textures 1 10000 (List.replicate 10002 0) (filereader.mk [1, 2, 3]) =
        .err .outOfBounds (filereader.mk [1, 2, 3]) := by
  refine ⟨by decide!, by decide!, by decide!, ?_, by decide!⟩
  intro k offs w w1 h
  have h1 := ((write_textures_ok_inv (k + 1) 10000 offs w w1 h).2.2 10000
    (Nat.le_refl _) (by omega)).2
  revert h1
  decide!

/-- C11. Empty textures chunk: for a TXTR chunk whose 4-byte count field is inside the file
and holds 0, whatever the declared size, `unpack_chunk` returns with the file list as it
was (no file created), only the chunk line printed, and the reader at the declared end
`start + size`. -/
theorem empty_textures_chunk (w : World) (hs : in_sync w) (hh : w.pos + 12 ≤ w.data.length)
    (ht : u32_at w.data w.pos = TXTR) (h0 : u32_at w.data (w.pos + 8) = 0) :
    unpack_chunk w = .ok ()
      { data := w.data
        pos := (w.pos + 8) + u32_at w.data (w.pos + 4)
        m_offset := (w.m_offset + 8) + u32_at w.data (w.pos + 4)
        files := w.files
        out := w.out ++ [.chunk TXTR (u32_at w.data (w.pos + 4)) w.pos] } := by
  rw [unpack_chunk_header w hs (by omega), ht]
  rw [dispatch_txtr_empty _ (after_header w) ⟨rfl, hs.2⟩ (u32_at_lt _ _)
    (by simp only [after_header]; omega) h0]
  simp [after_header, ht, hs.1]

/-- C11, on `empty_txtr_input`: 500 bytes declared, the file ends after the count; no file is
written and the reader ends at 508. -/
theorem empty_textures_chunk_witness :
    in_sync (filereader.mk empty_txtr_input) ∧
      unpack_chunk (filereader.mk empty_txtr_input) = .ok ()
        { data := empty_txtr_input, pos := 508, m_offset := 508, files := [],
          out := [.chunk TXTR 500 0] } :=
  ⟨by decide,
    empty_textures_chunk (filereader.mk empty_txtr_input) (by decide) (by decide) (by decide)
      (by decide)⟩

/-- C12, as stated, fails in both directions with the Linux limit of one call. On the 3 GiB
file a read of `2^31` bytes at offset 0, where `2^31` bytes remain, throws the I/O error: the
one call transfers `0x7ffff000` bytes and there is no second call. On `ten_bytes` a read of
`2^64 - 1` bytes at offset 0, where 10 bytes remain, returns: the call is refused with -1,
which is `ssize_t(2^64 - 1)`, nothing is read and `offset()` has become `2^64 - 1`. -/
theorem read_contract_for_every_n_fails :
    2147483648 ≤ (filereader.mk three_gib_input).data.length
        - (filereader.mk three_gib_input).pos ∧
      (∃ w1,
        filereader.read_one_call MAX_RW_COUNT 2147483648 (filereader.mk three_gib_input) =
          .err .ioError w1) ∧
      (filereader.mk ten_bytes).data.length - (filereader.mk ten_bytes).pos
        < 18446744073709551615 ∧
      filereader.read_one_call MAX_RW_COUNT 18446744073709551615 (filereader.mk ten_bytes) =
        .ok [] { data := ten_bytes, pos := 0, m_offset := 18446744073709551615, files := [],
                 out := [] } := by
  refine ⟨?_,
    ⟨_, read_one_call_above_limit MAX_RW_COUNT 2147483648 _ (by decide) (by decide)⟩,
    by decide, by decide!⟩
  have hp : (filereader.mk three_gib_input).pos = 0 := rfl
  rw [three_gib_length, hp]
  decide

/-- C12, amended. ByteCursor read contract: in a reader state whose `offset()` is the
descriptor position `p`, for every `n` not above the most one call of `read(2)` transfers,
`read` of `n` bytes returns exactly when at least `n` bytes remain at `p`; it then yields
`input[p, p + n)` and `offset()` becomes `p + n`; otherwise it throws the I/O error with
`offset()` unchanged. `read<uint32_t>` and `read<int32_t>` are that read for `n = 4`, the
bytes `b0 b1 b2 b3` taken as `b0 + 2^8 b1 + 2^16 b2 + 2^24 b3`, for `int32_t` minus `2^32`
when the top bit of `b3` is set. -/
theorem read_contract_within_one_call (max_rw : Nat) (w : World) (n : Nat) (hs : in_sync w)
    (hr : w.m_offset < U64) (hm : max_rw < OFF_MAX) (hn : n ≤ max_rw) :
    (n ≤ w.data.length - w.pos →
      filereader.read_one_call max_rw n w = .ok (slice w.data w.pos n)
          { w with pos := w.pos + n, m_offset := w.m_offset + n } ∧
        (slice w.data w.pos n).length = n) ∧
      (w.data.length - w.pos < n →
        ∃ w1, filereader.read_one_call max_rw n w = .err .ioError w1 ∧
          w1.m_offset = w.m_offset ∧ w1.files = w.files) ∧
      (4 ≤ max_rw → filereader.read 4 w = filereader.read_one_call max_rw 4 w) ∧
      (4 ≤ w.data.length - w.pos →
        filereader.read_u32 w = .ok (le_value (slice w.data w.pos 4))
            { w with pos := w.pos + 4, m_offset := w.m_offset + 4 } ∧
          filereader.read_i32 w = .ok (to_int32 (le_value (slice w.data w.pos 4)))
            { w with pos := w.pos + 4, m_offset := w.m_offset + 4 }) ∧
      (∀ b0 b1 b2 b3 : Nat, b0 < 256 → b1 < 256 → b2 < 256 → b3 < 256 →
        le_value [b0, b1, b2, b3] = b0 + 256 * b1 + 65536 * b2 + 16777216 * b3 ∧
        (b3 < 128 → to_int32 (le_value [b0, b1, b2, b3]) =
          (b0 + 256 * b1 + 65536 * b2 + 16777216 * b3 : Nat)) ∧
        (128 ≤ b3 → to_int32 (le_value [b0, b1, b2, b3]) =
          ((b0 + 256 * b1 + 65536 * b2 + 16777216 * b3 : Nat) : Int) - 4294967296)) := by
  have hU : U32 = 4294967296 := rfl
  rw [read_one_call_eq_read max_rw n w hn hm]
  refine ⟨(read_of_remaining_or_not w n hs hr).1, (read_of_remaining_or_not w n hs hr).2,
    fun h4 => (read_one_call_eq_read max_rw 4 w h4 hm).symm, fun h4 => ?_, ?_⟩
  · have := ((read_of_remaining_or_not w 4 hs hr).1 h4).1
    refine ⟨?_, ?_⟩
    · simp only [filereader.read_u32]
      rw [bind_of_ok this]; rfl
    · simp only [filereader.read_i32]
      rw [bind_of_ok this]; rfl
  · intro b0 b1 b2 b3 h0 h1 h2 h3
    have e : le_value [b0, b1, b2, b3] = b0 + 256 * b1 + 65536 * b2 + 16777216 * b3 := by
      simp only [le_value, Nat.mod_eq_of_lt h0, Nat.mod_eq_of_lt h1, Nat.mod_eq_of_lt h2,
        Nat.mod_eq_of_lt h3]
      omega
    refine ⟨e, fun h => ?_, fun h => ?_⟩
    · rw [e]
      unfold to_int32
      have : (b0 + 256 * b1 + 65536 * b2 + 16777216 * b3) % U32
          = b0 + 256 * b1 + 65536 * b2 + 16777216 * b3 :=
        Nat.mod_eq_of_lt (by omega)
      rw [this, if_pos (by omega)]
    · rw [e]
      unfold to_int32
      have : (b0 + 256 * b1 + 65536 * b2 + 16777216 * b3) % U32
          = b0 + 256 * b1 + 65536 * b2 + 16777216 * b3 :=
        Nat.mod_eq_of_lt (by omega)
      rw [this, if_neg (by omega)]

/-- C12, amended, on `ten_bytes` with the Linux limit: at offset 0 a read of 4 bytes yields
`78 56 34 12`, which `read<uint32_t>` takes as `0x12345678`; at offset 4 the bytes
`fe ff ff ff` read as the `int32_t` -2; a read of 7 bytes at offset 4, where 6 remain, throws
and leaves `offset()` at 4. -/
theorem read_contract_within_one_call_witness :
    filereader.read_one_call MAX_RW_COUNT 4 (filereader.mk ten_bytes) =
        .ok [0x78, 0x56, 0x34, 0x12]
          { data := ten_bytes, pos := 4, m_offset := 4, files := [], out := [] } ∧
      filereader.read_u32 (filereader.mk ten_bytes) = .ok 0x12345678
        { data := ten_bytes, pos := 4, m_offset := 4, files := [], out := [] } ∧
      filereader.read_i32
          { data := ten_bytes, pos := 4, m_offset := 4, files := [], out := [] } =
        .ok (-2) { data := ten_bytes, pos := 8, m_offset := 8, files := [], out := [] } ∧
      ∃ w1, filereader.read_one_call MAX_RW_COUNT 7
          { data := ten_bytes, pos := 4, m_offset := 4, files := [], out := [] } =
        .err .ioError w1 ∧ w1.m_offset = 4 ∧ w1.files = [] :=
  ⟨((read_contract_within_one_call MAX_RW_COUNT (filereader.mk ten_bytes) 4 (by decide)
      (by decide) (by decide) (by decide)).1 (by decide)).1,
    ((read_contract_within_one_call MAX_RW_COUNT (filereader.mk ten_bytes) 4 (by decide)
      (by decide) (by decide) (by decide)).2.2.2.1 (by decide)).1,
    by decide!,
    (read_contract_within_one_call MAX_RW_COUNT
      { data := ten_bytes, pos := 4, m_offset := 4, files := [], out := [] } 7
      (by decide) (by decide) (by decide) (by decide)).2.1 (by decide)⟩

/-- C15. TextureInfoEntry resolution: for a table offset `o` with 12 bytes at `o` inside the
file, `texture_data_offset` returns the 32-bit little-endian value at `o + 8`, after the two
fields at `o` and `o + 4` that it only prints, and leaves the reader at `o + 12`; and on a
table `tbl` of such offsets the loop of the TXTR handler turns the vector `tbl ++ rest` into
the data offsets of `tbl`, slot by slot in the same order, followed by `rest` untouched,
writing no file. -/
theorem texture_info_resolution (w : World) (o : Nat) (tbl rest : List Nat)
    (hl : w.data.length + U32 ≤ OFF_MAX) (h : o + 12 ≤ w.data.length)
    (htbl : ∀ o1 ∈ tbl, o1 + 12 ≤ w.data.length) :
    texture_data_offset o w = .ok (u32_at w.data (o + 8))
        { data := w.data
          pos := o + 12
          m_offset := o + 12
          files := w.files
          out := w.out ++ [.fileinfo o (u32_at w.data o) (u32_at w.data (o + 4))
            (u32_at w.data (o + 8))] } ∧
      ∃ w1, resolve_offsets tbl.length 0 (tbl ++ rest) w =
          .ok (tbl.map (fun o1 => u32_at w.data (o1 + 8)) ++ rest) w1 ∧
        w1.files = w.files :=
  ⟨texture_data_offset_ok w o hl h,
    (resolve_offsets_table tbl rest w hl htbl).imp fun _ hw => ⟨hw.1, hw.2.2⟩⟩

/-- C15, on `txtr_input`: the record at 24 holds (1, 2, 100) and resolves to 100 with the
reader at 36; the table 24, 36, 48 becomes 100, 180, 260 with the spare slot left at 0. -/
theorem texture_info_resolution_witness :
    texture_data_offset 24 (filereader.mk txtr_input) = .ok 100
        { data := txtr_input, pos := 36, m_offset := 36, files := [],
          out := [.fileinfo 24 1 2 100] } ∧
      ∃ w1, resolve_offsets 3 0 [24, 36, 48, 0] (filereader.mk txtr_input) =
          .ok [100, 180, 260, 0] w1 ∧ w1.files = [] :=
  texture_info_resolution (filereader.mk txtr_input) 24 [24, 36, 48] [0] (by decide!)
    (by decide!) (by decide!)

/-- C17. Termination and progress of the envelope loop: on any input (within the `off_t`
range less 4 GiB) `unpack` comes to an end, returning or throwing, as soon as the fuel
covers `ceil(size / 8)` iterations, `size` being the declared length of the envelope; a
chunk that is handled moves `offset()` on by exactly 8 plus its declared size, whatever its
handler sought in between; and after `k` handled chunks the offset is at least `8 + 8 k`,
so that when the guard lets iteration `k + 1` start, `k + 1 ≤ ceil(size / 8)`. -/
theorem envelope_loop_terminates (data : List Nat) (hl : data.length + U32 ≤ OFF_MAX) :
    (∀ fuel, (u32_at data 4 + 7) / 8 ≤ fuel → ∃ r, unpack fuel data = some r) ∧
      (∀ w w1, in_sync w → unpack_chunk w = .ok () w1 →
        w1.m_offset = w.m_offset + 8 + u32_at w.data (w.pos + 4)) ∧
      (∀ k w, run_chunks (u32_at data 4) k (after_envelope data) = some w →
        8 + 8 * k ≤ w.m_offset ∧
          (w.m_offset < u32_at data 4 → k + 1 ≤ (u32_at data 4 + 7) / 8)) := by
  refine ⟨fun fuel hf => unpack_terminates data fuel hl hf,
    fun w w1 hs h => unpack_chunk_advance hs h, fun k w h => ?_⟩
  have := run_chunks_progress _ k _ w (in_sync_after_envelope data hl) h
  simp only [after_envelope] at this
  exact ⟨this, fun hg => by omega⟩

/-- C17, on `junk_input`, whose envelope declares 42 bytes: with fuel 6 the run comes to an
end. -/
theorem envelope_loop_terminates_witness :
    junk_input.length + U32 ≤ OFF_MAX ∧ (u32_at junk_input 4 + 7) / 8 ≤ 6 ∧
      ∃ r, unpack 6 junk_input = some r :=
  ⟨by decide!, by decide!, (envelope_loop_terminates junk_input (by decide!)).1 6 (by decide!)⟩

/-- C18 (the code at the failing count). For the declared count `N = 0xffffffff` the vector
gets `(N + 1) mod 2^32 = 0` slots, not `N + 1`; on `huge_count_input`, where 4 bytes follow
the count, the read of `4 N` bytes into it is a store past the end of the vector. -/
theorem offsets_vector_has_no_slot_at_max_count :
    (0xffffffff + 1) % U32 = 0 ∧
      (List.replicate ((0xffffffff + 1) % U32) 0).length = 0 ∧
      u32_at huge_count_input 8 = 0xffffffff ∧
      unpack_chunk (filereader.mk huge_count_input) = .err .outOfBounds
        { data := huge_count_input, pos := 12, m_offset := 12, files := [],
          out := [.chunk TXTR 8 0] } := by
  decide!

/-- C20. Resolve-before-write ordering: in a TXTR chunk whose table is inside the file, if
the 12-byte record at the table offset of some entry `j < N` is not inside the file, the
run fails (with the I/O error, for every count below `2^32 - 1`) and the file list is the
one from before the chunk: no file is written, whatever the entries before `j` and their
blobs are. -/
theorem resolve_before_write (w : World) (j N : Nat) (hs : in_sync w)
    (hh : w.pos + 12 ≤ w.data.length) (ht : u32_at w.data w.pos = TXTR)
    (hNdef : N = u32_at w.data (w.pos + 8))
    (htab : w.pos + 12 + 4 * N ≤ w.data.length) (hj : j < N)
    (hbad : w.data.length < (offset_table w.data (w.pos + 8)).getD j 0 + 12) :
    ∃ e w1, unpack_chunk w = .err e w1 ∧ w1.files = w.files ∧
      (N + 1 < U32 → e = .ioError) := by
  subst hNdef
  exact unpack_chunk_txtr_unresolved w j hs hh ht htab hj hbad

/-- C20, on `unresolved_input`: entry 0 has its record and its blob in the file, the record
of entry 1 is at 1000, past the end; the run stops with the I/O error and no file. -/
theorem resolve_before_write_witness :
    unpack_chunk (filereader.mk unresolved_input) = .err .ioError
        { data := unresolved_input, pos := 1000, m_offset := 1000, files := [],
          out := [.chunk TXTR 26 0, .fileinfo 20 0 0 32] } ∧
      ∃ e w1, unpack_chunk (filereader.mk unresolved_input) = .err e w1 ∧ w1.files = [] ∧
        (2 + 1 < U32 → e = .ioError) :=
  ⟨by decide!,
    resolve_before_write (filereader.mk unresolved_input) 1 2 (by decide!) (by decide!)
      (by decide!) (by decide!) (by decide!) (by decide!) (by decide!)⟩

end GMUnpack
